import Mathlib

/-!
Verification of the xqcL-3d mesh pipeline (scripts/build_xqcL_coin_parts.js,
scripts/build_xqcL_stl.js, scripts/inspect_stl.js).

Numbers that the scripts handle as IEEE doubles are modelled as exact
rationals; integer grid indices are modelled as naturals.  Grids that the
scripts store as flat typed arrays indexed by `y * W + x` are modelled as
functions `Nat → Nat → Bool` (masks) or as flat `List`s with the same index
arithmetic.
-/

namespace Xq3d

/-- A voxel mask (`Uint8Array` of 0/1 in the script, indexed `y * W + x`),
modelled as a total function from coordinates to inclusion flags.  Cells
outside the `W × H` grid exist in the model but are never touched by the
repair passes, mirroring the script where they simply do not exist. -/
abbrev Mask := Nat → Nat → Bool

/-- Write value `v` at cell `(i, j)` (the script's `mask[idx(i, j)] = v`). -/
def maskUpd (m : Mask) (i j : Nat) (v : Bool) : Mask :=
  fun x y => if x = i ∧ y = j then v else m x y

/-- The first forbidden 2×2 pattern of `breakDiagonalContacts`:
`a && !b && !c && d`, i.e. `1 0 / 0 1` at block origin `(x, y)`. -/
def pat1 (m : Mask) (x y : Nat) : Bool :=
  m x y && !m (x+1) y && !m x (y+1) && m (x+1) (y+1)

/-- The second forbidden 2×2 pattern of `breakDiagonalContacts`:
`!a && b && c && !d`, i.e. `0 1 / 1 0` at block origin `(x, y)`. -/
def pat2 (m : Mask) (x y : Nat) : Bool :=
  !m x y && m (x+1) y && m x (y+1) && !m (x+1) (y+1)

/-- Block `(x, y)` matches neither forbidden diagonal pattern. -/
def noPat (m : Mask) (p : Nat × Nat) : Prop :=
  pat1 m p.1 p.2 = false ∧ pat2 m p.1 p.2 = false

/-- One iteration of the double loop of `breakDiagonalContacts` at block
origin `p`: clear the bottom-right cell on pattern `1 0 / 0 1`, the
bottom-left cell on pattern `0 1 / 1 0`.  The script reads `a, b, c, d`
before both `if`s; the two conditions are mutually exclusive (they disagree
on `a`), so sequencing them as nested `if`s is equivalent. -/
def diagStep (m : Mask) (p : Nat × Nat) : Mask :=
  if pat1 m p.1 p.2 then maskUpd m (p.1+1) (p.2+1) false
  else if pat2 m p.1 p.2 then maskUpd m p.1 (p.2+1) false
  else m

/-- The 2×2 block origins in the raster order of the script's loops
(`y` outer from `0` to `H-2`, `x` inner from `0` to `W-2`). -/
def blockList (W H : Nat) : List (Nat × Nat) :=
  (List.range (H-1)).flatMap (fun y => (List.range (W-1)).map (fun x => (x, y)))

/-- `breakDiagonalContacts` of build_xqcL_coin_parts.js (lines 256-274):
the in-place raster scan is the left fold of `diagStep` over the blocks. -/
def breakDiagonalContacts (W H : Nat) (m : Mask) : Mask :=
  (blockList W H).foldl diagStep m

/-- The 4-neighbor count of `removeIsolated`:
`(x > 0 ? mask[x-1,y] : 0) + (x < W-1 ? mask[x+1,y] : 0) + (y > 0 ? ...) + (y < H-1 ? ...)`. -/
def nbCount (W H : Nat) (m : Mask) (x y : Nat) : Nat :=
  (if 0 < x then (if m (x-1) y then 1 else 0) else 0) +
  (if x + 1 < W then (if m (x+1) y then 1 else 0) else 0) +
  (if 0 < y then (if m x (y-1) then 1 else 0) else 0) +
  (if y + 1 < H then (if m x (y+1) then 1 else 0) else 0)

/-- `removeIsolated` of build_xqcL_coin_parts.js (lines 276-292): neighbor
counts are taken on the input mask (the script copies `mask` into `out`
before clearing), so the pass is a pointwise map. -/
def removeIsolated (W H : Nat) (m : Mask) : Mask :=
  fun x y =>
    if x < W ∧ y < H ∧ m x y = true ∧ nbCount W H m x y = 0 then false else m x y

/-- The per-class mask cleanup of `main` in build_xqcL_coin_parts.js
(lines 457-458): `removeIsolated(mask, W, H); breakDiagonalContacts(mask, W, H);`
in that order. -/
def mainMaskRepair (W H : Nat) (m : Mask) : Mask :=
  breakDiagonalContacts W H (removeIsolated W H m)

/-- The composite repair in the order the specification states it:
diagonal-contact breaking first, isolated-cell removal second. -/
def repairMask (W H : Nat) (m : Mask) : Mask :=
  removeIsolated W H (breakDiagonalContacts W H m)

/-- Raster order on block origins: `p` is scanned strictly before `q`. -/
def rLt (p q : Nat × Nat) : Prop :=
  p.2 < q.2 ∨ (p.2 = q.2 ∧ p.1 < q.1)

theorem maskUpd_same (m : Mask) (i j : Nat) (v : Bool) : maskUpd m i j v i j = v := by
  simp [maskUpd]

theorem maskUpd_other (m : Mask) (i j : Nat) (v : Bool) (x y : Nat)
    (h : ¬(x = i ∧ y = j)) : maskUpd m i j v x y = m x y := by
  simp only [maskUpd, if_neg h]

theorem maskUpd_false_subset (m : Mask) (i j x y : Nat)
    (h : maskUpd m i j false x y = true) : m x y = true := by
  by_cases hc : x = i ∧ y = j
  · rw [hc.1, hc.2, maskUpd_same] at h
    cases h
  · rwa [maskUpd_other m i j false x y hc] at h

theorem diagStep_subset (m : Mask) (p : Nat × Nat) (x y : Nat)
    (h : diagStep m p x y = true) : m x y = true := by
  unfold diagStep at h
  split at h
  · exact maskUpd_false_subset m (p.1+1) (p.2+1) x y h
  · split at h
    · exact maskUpd_false_subset m p.1 (p.2+1) x y h
    · exact h

theorem foldl_diagStep_subset (L : List (Nat × Nat)) (m : Mask) (x y : Nat)
    (h : (L.foldl diagStep m) x y = true) : m x y = true := by
  induction L generalizing m with
  | nil => exact h
  | cons p L ih => exact diagStep_subset m p x y (ih (diagStep m p) h)

theorem removeIsolated_subset (W H : Nat) (m : Mask) (x y : Nat)
    (h : removeIsolated W H m x y = true) : m x y = true := by
  unfold removeIsolated at h
  split at h
  · cases h
  · exact h

theorem pat1_eq_true_iff (m : Mask) (x y : Nat) :
    pat1 m x y = true ↔
      m x y = true ∧ m (x+1) y = false ∧ m x (y+1) = false ∧ m (x+1) (y+1) = true := by
  simp [pat1, and_assoc]

theorem pat2_eq_true_iff (m : Mask) (x y : Nat) :
    pat2 m x y = true ↔
      m x y = false ∧ m (x+1) y = true ∧ m x (y+1) = true ∧ m (x+1) (y+1) = false := by
  simp [pat2, and_assoc]

theorem diagStep_self (m : Mask) (p : Nat × Nat) : noPat (diagStep m p) p := by
  obtain ⟨x, y⟩ := p
  show pat1 (diagStep m (x, y)) x y = false ∧ pat2 (diagStep m (x, y)) x y = false
  by_cases h1 : pat1 m x y = true
  · have hstep : diagStep m (x, y) = maskUpd m (x+1) (y+1) false := by
      simp [diagStep, h1]
    have ha : m x y = true := ((pat1_eq_true_iff m x y).mp h1).1
    have e4 : maskUpd m (x+1) (y+1) false (x+1) (y+1) = false := maskUpd_same m (x+1) (y+1) false
    have e1 : maskUpd m (x+1) (y+1) false x y = m x y :=
      maskUpd_other m (x+1) (y+1) false x y (by omega)
    rw [hstep]
    constructor
    · simp [pat1, e4]
    · simp [pat2, e1, ha]
  · by_cases h2 : pat2 m x y = true
    · have hstep : diagStep m (x, y) = maskUpd m x (y+1) false := by
        simp [diagStep, h1, h2]
      have ha : m x y = false := ((pat2_eq_true_iff m x y).mp h2).1
      have e3 : maskUpd m x (y+1) false x (y+1) = false := maskUpd_same m x (y+1) false
      have e1 : maskUpd m x (y+1) false x y = m x y :=
        maskUpd_other m x (y+1) false x y (by omega)
      rw [hstep]
      constructor
      · simp [pat1, e1, ha]
      · simp [pat2, e3]
    · have hstep : diagStep m (x, y) = m := by
        simp [diagStep, h1, h2]
      rw [hstep]
      refine ⟨?_, ?_⟩
      · simpa using h1
      · simpa using h2

theorem diagStep_pres (m : Mask) (p q : Nat × Nat) (hlt : rLt q p) (h : noPat m q) :
    noPat (diagStep m p) q := by
  obtain ⟨x0, y0⟩ := p
  obtain ⟨x, y⟩ := q
  have hlt2 : y < y0 ∨ (y = y0 ∧ x < x0) := hlt
  show pat1 (diagStep m (x0, y0)) x y = false ∧ pat2 (diagStep m (x0, y0)) x y = false
  have hq1 : pat1 m x y = false := h.1
  have hq2 : pat2 m x y = false := h.2
  by_cases h1 : pat1 m x0 y0 = true
  · have hstep : diagStep m (x0, y0) = maskUpd m (x0+1) (y0+1) false := by
      simp [diagStep, h1]
    have e1 : maskUpd m (x0+1) (y0+1) false x y = m x y :=
      maskUpd_other m (x0+1) (y0+1) false x y (by omega)
    have e2 : maskUpd m (x0+1) (y0+1) false (x+1) y = m (x+1) y :=
      maskUpd_other m (x0+1) (y0+1) false (x+1) y (by omega)
    have e3 : maskUpd m (x0+1) (y0+1) false x (y+1) = m x (y+1) :=
      maskUpd_other m (x0+1) (y0+1) false x (y+1) (by omega)
    have e4 : maskUpd m (x0+1) (y0+1) false (x+1) (y+1) = m (x+1) (y+1) :=
      maskUpd_other m (x0+1) (y0+1) false (x+1) (y+1) (by omega)
    rw [hstep]
    constructor
    · simp only [pat1, e1, e2, e3, e4]
      exact hq1
    · simp only [pat2, e1, e2, e3, e4]
      exact hq2
  · by_cases h2 : pat2 m x0 y0 = true
    · have hb : m x0 y0 = false := ((pat2_eq_true_iff m x0 y0).mp h2).1
      have hstep : diagStep m (x0, y0) = maskUpd m x0 (y0+1) false := by
        simp [diagStep, h1, h2]
      rw [hstep]
      by_cases hd : x + 1 = x0 ∧ y = y0
      · obtain ⟨hdx, hdy⟩ := hd
        subst hdx
        subst hdy
        have e4 : maskUpd m (x+1) (y+1) false (x+1) (y+1) = false :=
          maskUpd_same m (x+1) (y+1) false
        have e2 : maskUpd m (x+1) (y+1) false (x+1) y = m (x+1) y :=
          maskUpd_other m (x+1) (y+1) false (x+1) y (by omega)
        constructor
        · simp [pat1, e4]
        · simp [pat2, e2, hb]
      · have e1 : maskUpd m x0 (y0+1) false x y = m x y :=
          maskUpd_other m x0 (y0+1) false x y (by omega)
        have e2 : maskUpd m x0 (y0+1) false (x+1) y = m (x+1) y :=
          maskUpd_other m x0 (y0+1) false (x+1) y (by omega)
        have e3 : maskUpd m x0 (y0+1) false x (y+1) = m x (y+1) :=
          maskUpd_other m x0 (y0+1) false x (y+1) (by omega)
        have e4 : maskUpd m x0 (y0+1) false (x+1) (y+1) = m (x+1) (y+1) :=
          maskUpd_other m x0 (y0+1) false (x+1) (y+1) (by omega)
        constructor
        · simp only [pat1, e1, e2, e3, e4]
          exact hq1
        · simp only [pat2, e1, e2, e3, e4]
          exact hq2
    · have hstep : diagStep m (x0, y0) = m := by
        simp [diagStep, h1, h2]
      rw [hstep]
      exact ⟨hq1, hq2⟩

theorem foldl_diagStep_noPat (L : List (Nat × Nat)) (m : Mask) (P : List (Nat × Nat))
    (hP : ∀ q ∈ P, noPat m q)
    (hPL : ∀ q ∈ P, ∀ r ∈ L, rLt q r)
    (hL : L.Pairwise rLt) :
    ∀ q, (q ∈ P ∨ q ∈ L) → noPat (L.foldl diagStep m) q := by
  induction L generalizing m P with
  | nil =>
    intro q hq
    rcases hq with hq | hq
    · exact hP q hq
    · cases hq
  | cons p L ih =>
    have hpc := List.pairwise_cons.mp hL
    have hP2 : ∀ q ∈ p :: P, noPat (diagStep m p) q := by
      intro q hq
      rcases List.mem_cons.mp hq with rfl | hq
      · exact diagStep_self m q
      · exact diagStep_pres m p q (hPL q hq p (List.mem_cons_self p L)) (hP q hq)
    have hPL2 : ∀ q ∈ p :: P, ∀ r ∈ L, rLt q r := by
      intro q hq r hr
      rcases List.mem_cons.mp hq with rfl | hq
      · exact hpc.1 r hr
      · exact hPL q hq r (List.mem_cons_of_mem p hr)
    intro q hq
    refine ih (diagStep m p) (p :: P) hP2 hPL2 hpc.2 q ?_
    rcases hq with hq | hq
    · exact Or.inl (List.mem_cons_of_mem p hq)
    · rcases List.mem_cons.mp hq with rfl | hq
      · exact Or.inl (List.mem_cons_self q P)
      · exact Or.inr hq

theorem mem_blockList (W H : Nat) (x y : Nat) :
    (x, y) ∈ blockList W H ↔ x < W - 1 ∧ y < H - 1 := by
  simp only [blockList, List.mem_flatMap, List.mem_map, List.mem_range, Prod.mk.injEq]
  constructor
  · rintro ⟨b, hb, a, ha, rfl, rfl⟩
    exact ⟨ha, hb⟩
  · rintro ⟨hx, hy⟩
    exact ⟨y, hy, x, hx, rfl, rfl⟩

theorem blockList_pairwise (W H : Nat) : (blockList W H).Pairwise rLt := by
  unfold blockList
  rw [List.pairwise_flatMap]
  constructor
  · intro y hy
    rw [List.pairwise_map]
    exact (List.pairwise_lt_range (W-1)).imp (fun h => Or.inr ⟨rfl, h⟩)
  · refine (List.pairwise_lt_range (H-1)).imp ?_
    intro y1 y2 hlt p hp q hq
    rw [List.mem_map] at hp hq
    obtain ⟨x1, hx1, rfl⟩ := hp
    obtain ⟨x2, hx2, rfl⟩ := hq
    exact Or.inl hlt

theorem breakDiagonalContacts_noPat (W H : Nat) (m : Mask) (x y : Nat)
    (hx : x + 1 < W) (hy : y + 1 < H) :
    noPat (breakDiagonalContacts W H m) (x, y) := by
  refine foldl_diagStep_noPat (blockList W H) m []
    (by intro q hq; cases hq) (by intro q hq; cases hq) (blockList_pairwise W H) (x, y) ?_
  exact Or.inr ((mem_blockList W H x y).mpr ⟨by omega, by omega⟩)

theorem diagStep_id (m : Mask) (p : Nat × Nat) (h : noPat m p) : diagStep m p = m := by
  have h1 : pat1 m p.1 p.2 = false := h.1
  have h2 : pat2 m p.1 p.2 = false := h.2
  simp [diagStep, h1, h2]

theorem foldl_diagStep_id (L : List (Nat × Nat)) (m : Mask)
    (h : ∀ p ∈ L, noPat m p) : L.foldl diagStep m = m := by
  induction L with
  | nil => rfl
  | cons p L ih =>
    rw [List.foldl_cons, diagStep_id m p (h p (List.mem_cons_self p L))]
    exact ih (fun q hq => h q (List.mem_cons_of_mem p hq))

theorem removeIsolated_keep (W H : Nat) (m : Mask) (x y : Nat)
    (hm : m x y = true) (hc : nbCount W H m x y ≠ 0) :
    removeIsolated W H m x y = true := by
  unfold removeIsolated
  split
  · next hcond => exact absurd hcond.2.2.2 hc
  · exact hm

theorem removeIsolated_cleared (W H : Nat) (m : Mask) (x y : Nat)
    (hm : m x y = true) (hout : removeIsolated W H m x y = false) :
    nbCount W H m x y = 0 := by
  unfold removeIsolated at hout
  split at hout
  · next hcond => exact hcond.2.2.2
  · rw [hm] at hout
    cases hout

theorem nbCount_pos_of_left (W H : Nat) (m : Mask) (x y : Nat) (hm : m x y = true) :
    nbCount W H m (x+1) y ≠ 0 := by
  unfold nbCount
  have h1 : (if 0 < x + 1 then (if m (x+1-1) y then 1 else 0) else 0) = 1 := by
    simp [hm]
  omega

theorem nbCount_pos_of_right (W H : Nat) (m : Mask) (x y : Nat)
    (hx : x + 1 < W) (hm : m (x+1) y = true) : nbCount W H m x y ≠ 0 := by
  unfold nbCount
  have h2 : (if x + 1 < W then (if m (x+1) y then 1 else 0) else 0) = 1 := by
    simp [hx, hm]
  omega

theorem nbCount_pos_of_up (W H : Nat) (m : Mask) (x y : Nat) (hm : m x y = true) :
    nbCount W H m x (y+1) ≠ 0 := by
  unfold nbCount
  have h3 : (if 0 < y + 1 then (if m x (y+1-1) then 1 else 0) else 0) = 1 := by
    simp [hm]
  omega

theorem nbCount_pos_of_down (W H : Nat) (m : Mask) (x y : Nat)
    (hy : y + 1 < H) (hm : m x (y+1) = true) : nbCount W H m x y ≠ 0 := by
  unfold nbCount
  have h4 : (if y + 1 < H then (if m x (y+1) then 1 else 0) else 0) = 1 := by
    simp [hy, hm]
  omega

theorem nbCount_ne_zero_elim (W H : Nat) (m : Mask) (x y : Nat)
    (h : nbCount W H m x y ≠ 0) :
    (0 < x ∧ m (x-1) y = true) ∨ (x + 1 < W ∧ m (x+1) y = true) ∨
    (0 < y ∧ m x (y-1) = true) ∨ (y + 1 < H ∧ m x (y+1) = true) := by
  unfold nbCount at h
  by_cases c1 : 0 < x ∧ m (x-1) y = true
  · exact Or.inl c1
  by_cases c2 : x + 1 < W ∧ m (x+1) y = true
  · exact Or.inr (Or.inl c2)
  by_cases c3 : 0 < y ∧ m x (y-1) = true
  · exact Or.inr (Or.inr (Or.inl c3))
  by_cases c4 : y + 1 < H ∧ m x (y+1) = true
  · exact Or.inr (Or.inr (Or.inr c4))
  exfalso
  apply h
  have e1 : (if 0 < x then (if m (x-1) y then 1 else 0) else 0) = 0 := by
    rcases Decidable.em (0 < x) with hx | hx
    · have : m (x-1) y = false := by
        rcases Bool.eq_false_or_eq_true (m (x-1) y) with hh | hh
        · exact absurd ⟨hx, hh⟩ c1
        · exact hh
      simp [hx, this]
    · simp [hx]
  have e2 : (if x + 1 < W then (if m (x+1) y then 1 else 0) else 0) = 0 := by
    rcases Decidable.em (x + 1 < W) with hx | hx
    · have : m (x+1) y = false := by
        rcases Bool.eq_false_or_eq_true (m (x+1) y) with hh | hh
        · exact absurd ⟨hx, hh⟩ c2
        · exact hh
      simp [hx, this]
    · simp [hx]
  have e3 : (if 0 < y then (if m x (y-1) then 1 else 0) else 0) = 0 := by
    rcases Decidable.em (0 < y) with hy | hy
    · have : m x (y-1) = false := by
        rcases Bool.eq_false_or_eq_true (m x (y-1)) with hh | hh
        · exact absurd ⟨hy, hh⟩ c3
        · exact hh
      simp [hy, this]
    · simp [hy]
  have e4 : (if y + 1 < H then (if m x (y+1) then 1 else 0) else 0) = 0 := by
    rcases Decidable.em (y + 1 < H) with hy | hy
    · have : m x (y+1) = false := by
        rcases Bool.eq_false_or_eq_true (m x (y+1)) with hh | hh
        · exact absurd ⟨hy, hh⟩ c4
        · exact hh
      simp [hy, this]
    · simp [hy]
  omega

theorem removeIsolated_not_isolated (W H : Nat) (m : Mask) (x y : Nat)
    (hx : x < W) (hy : y < H) (h : removeIsolated W H m x y = true) :
    nbCount W H (removeIsolated W H m) x y ≠ 0 := by
  have hm : m x y = true := removeIsolated_subset W H m x y h
  have hc : nbCount W H m x y ≠ 0 := by
    intro h0
    have hfalse : removeIsolated W H m x y = false := by
      show (if x < W ∧ y < H ∧ m x y = true ∧ nbCount W H m x y = 0 then false else m x y) = false
      rw [if_pos ⟨hx, hy, hm, h0⟩]
    rw [hfalse] at h
    cases h
  rcases nbCount_ne_zero_elim W H m x y hc with ⟨hb, hn⟩ | ⟨hb, hn⟩ | ⟨hb, hn⟩ | ⟨hb, hn⟩
  · have hxe : x - 1 + 1 = x := by omega
    have hkeep : removeIsolated W H m (x-1) y = true := by
      refine removeIsolated_keep W H m (x-1) y hn ?_
      refine nbCount_pos_of_right W H m (x-1) y (by omega) ?_
      rw [hxe]
      exact hm
    have := nbCount_pos_of_left W H (removeIsolated W H m) (x-1) y hkeep
    rwa [hxe] at this
  · have hkeep : removeIsolated W H m (x+1) y = true :=
      removeIsolated_keep W H m (x+1) y hn (nbCount_pos_of_left W H m x y hm)
    exact nbCount_pos_of_right W H (removeIsolated W H m) x y hb hkeep
  · have hye : y - 1 + 1 = y := by omega
    have hkeep : removeIsolated W H m x (y-1) = true := by
      refine removeIsolated_keep W H m x (y-1) hn ?_
      refine nbCount_pos_of_down W H m x (y-1) (by omega) ?_
      rw [hye]
      exact hm
    have := nbCount_pos_of_up W H (removeIsolated W H m) x (y-1) hkeep
    rwa [hye] at this
  · have hkeep : removeIsolated W H m x (y+1) = true :=
      removeIsolated_keep W H m x (y+1) hn (nbCount_pos_of_up W H m x y hm)
    exact nbCount_pos_of_down W H (removeIsolated W H m) x y hb hkeep

theorem removeIsolated_noPat (W H : Nat) (m : Mask) (x y : Nat)
    (hx : x + 1 < W) (hy : y + 1 < H) (h : noPat m (x, y)) :
    noPat (removeIsolated W H m) (x, y) := by
  have hp1 : pat1 m x y = false := h.1
  have hp2 : pat2 m x y = false := h.2
  constructor
  · rcases Bool.eq_false_or_eq_true (pat1 (removeIsolated W H m) x y) with hp | hp
    · exfalso
      obtain ⟨o1, o2, o3, o4⟩ := (pat1_eq_true_iff (removeIsolated W H m) x y).mp hp
      have m1 : m x y = true := removeIsolated_subset W H m x y o1
      have m4 : m (x+1) (y+1) = true := removeIsolated_subset W H m (x+1) (y+1) o4
      have hbc : m (x+1) y = true ∨ m x (y+1) = true := by
        rcases Bool.eq_false_or_eq_true (m (x+1) y) with hb | hb
        · exact Or.inl hb
        · rcases Bool.eq_false_or_eq_true (m x (y+1)) with hc | hc
          · exact Or.inr hc
          · exfalso
            have hone : pat1 m x y = true := (pat1_eq_true_iff m x y).mpr ⟨m1, hb, hc, m4⟩
            rw [hp1] at hone
            cases hone
      rcases hbc with hb | hc
      · have hz : nbCount W H m (x+1) y = 0 := removeIsolated_cleared W H m (x+1) y hb o2
        exact nbCount_pos_of_left W H m x y m1 hz
      · have hz : nbCount W H m x (y+1) = 0 := removeIsolated_cleared W H m x (y+1) hc o3
        exact nbCount_pos_of_up W H m x y m1 hz
    · exact hp
  · rcases Bool.eq_false_or_eq_true (pat2 (removeIsolated W H m) x y) with hp | hp
    · exfalso
      obtain ⟨o1, o2, o3, o4⟩ := (pat2_eq_true_iff (removeIsolated W H m) x y).mp hp
      have m2 : m (x+1) y = true := removeIsolated_subset W H m (x+1) y o2
      have m3 : m x (y+1) = true := removeIsolated_subset W H m x (y+1) o3
      have had : m x y = true ∨ m (x+1) (y+1) = true := by
        rcases Bool.eq_false_or_eq_true (m x y) with ha | ha
        · exact Or.inl ha
        · rcases Bool.eq_false_or_eq_true (m (x+1) (y+1)) with hd | hd
          · exact Or.inr hd
          · exfalso
            have htwo : pat2 m x y = true := (pat2_eq_true_iff m x y).mpr ⟨ha, m2, m3, hd⟩
            rw [hp2] at htwo
            cases htwo
      rcases had with ha | hd
      · have hz : nbCount W H m x y = 0 := removeIsolated_cleared W H m x y ha o1
        exact nbCount_pos_of_right W H m x y hx m2 hz
      · have hz : nbCount W H m (x+1) (y+1) = 0 :=
          removeIsolated_cleared W H m (x+1) (y+1) hd o4
        exact nbCount_pos_of_up W H m (x+1) y m2 hz
    · exact hp

theorem removeIsolated_idem (W H : Nat) (m : Mask) (x y : Nat) :
    removeIsolated W H (removeIsolated W H m) x y = removeIsolated W H m x y := by
  by_cases hcond : x < W ∧ y < H ∧ removeIsolated W H m x y = true ∧
      nbCount W H (removeIsolated W H m) x y = 0
  · exfalso
    exact removeIsolated_not_isolated W H m x y hcond.1 hcond.2.1 hcond.2.2.1 hcond.2.2.2
  · show (if x < W ∧ y < H ∧ removeIsolated W H m x y = true ∧
        nbCount W H (removeIsolated W H m) x y = 0 then false
      else removeIsolated W H m x y) = removeIsolated W H m x y
    rw [if_neg hcond]

/-- The all-included mask, used to instantiate witnesses on a 2×2 grid. -/
def maskAll : Mask := fun _ _ => true

/-- The 3×2 mask with cells (0,0), (1,1), (2,1) included: a diagonal kiss at
block (0,0) whose bottom-right partner also has a horizontal neighbor. -/
def c1Mask : Mask := fun x y =>
  (x == 0 && y == 0) || (x == 1 && y == 1) || (x == 2 && y == 1)

/-- C5: for every boolean VoxelMask, the composite repair in the order the
spec states it (diagonal-contact breaking, then isolated-cell removal) is
idempotent, and the repaired mask has no forbidden 2×2 diagonal pattern at
any in-grid block and no included in-grid cell with zero included
4-neighbors. -/
theorem repairMask_idempotent_and_clean (W H : Nat) (m : Mask) :
    (∀ x y, repairMask W H (repairMask W H m) x y = repairMask W H m x y) ∧
    (∀ x y, x + 1 < W → y + 1 < H → noPat (repairMask W H m) (x, y)) ∧
    (∀ x y, x < W → y < H → repairMask W H m x y = true →
      nbCount W H (repairMask W H m) x y ≠ 0) := by
  have hclean : ∀ x y, x + 1 < W → y + 1 < H → noPat (repairMask W H m) (x, y) := by
    intro x y hx hy
    exact removeIsolated_noPat W H (breakDiagonalContacts W H m) x y hx hy
      (breakDiagonalContacts_noPat W H m x y hx hy)
  have hiso : ∀ x y, x < W → y < H → repairMask W H m x y = true →
      nbCount W H (repairMask W H m) x y ≠ 0 := by
    intro x y hx hy h
    exact removeIsolated_not_isolated W H (breakDiagonalContacts W H m) x y hx hy h
  refine ⟨?_, hclean, hiso⟩
  intro x y
  have hbd : breakDiagonalContacts W H (repairMask W H m) = repairMask W H m := by
    unfold breakDiagonalContacts
    apply foldl_diagStep_id
    intro p hp
    obtain ⟨px, py⟩ := p
    have hmem := (mem_blockList W H px py).mp hp
    exact hclean px py (by omega) (by omega)
  show removeIsolated W H (breakDiagonalContacts W H (repairMask W H m)) x y =
    repairMask W H m x y
  rw [hbd]
  exact removeIsolated_idem W H (breakDiagonalContacts W H m) x y

/-- C5 witness: the composite repair instantiated on the all-ones 2×2 mask,
with every hypothesis discharged at concrete coordinates. -/
theorem repairMask_idempotent_and_clean_witness :
    repairMask 2 2 (repairMask 2 2 maskAll) 0 0 = repairMask 2 2 maskAll 0 0 ∧
    noPat (repairMask 2 2 maskAll) (0, 0) ∧
    nbCount 2 2 (repairMask 2 2 maskAll) 0 0 ≠ 0 :=
  ⟨(repairMask_idempotent_and_clean 2 2 maskAll).1 0 0,
   (repairMask_idempotent_and_clean 2 2 maskAll).2.1 0 0 (by decide) (by decide),
   (repairMask_idempotent_and_clean 2 2 maskAll).2.2 0 0 (by decide) (by decide) (by decide)⟩

/-- C9: both repair passes are shrinking: a cell included in the output of
`breakDiagonalContacts` or of `removeIsolated` was already included in the
input mask. -/
theorem repair_passes_shrink (W H : Nat) (m : Mask) (x y : Nat) :
    (breakDiagonalContacts W H m x y = true → m x y = true) ∧
    (removeIsolated W H m x y = true → m x y = true) :=
  ⟨fun h => foldl_diagStep_subset (blockList W H) m x y h,
   fun h => removeIsolated_subset W H m x y h⟩

/-- C9 witness: both shrink implications instantiated at concrete cells of
the all-ones 2×2 mask. -/
theorem repair_passes_shrink_witness : maskAll 0 0 = true ∧ maskAll 1 1 = true :=
  ⟨(repair_passes_shrink 2 2 maskAll 0 0).1 (by decide),
   (repair_passes_shrink 2 2 maskAll 1 1).2 (by decide)⟩

/-- C1 counterexample: `main` runs `removeIsolated` FIRST and
`breakDiagonalContacts` SECOND (build_xqcL_coin_parts.js lines 457-458), so
the mask handed to extrusion (`mainMaskRepair`) is not `removeIsolated`
applied after `breakDiagonalContacts` (`repairMask`): on the 3×2 mask
{(0,0),(1,1),(2,1)} the code order keeps cell (1,1) while the claimed order
clears it. -/
theorem mainMaskRepair_order_counterexample :
    mainMaskRepair 3 2 c1Mask 1 1 = true ∧ repairMask 3 2 c1Mask 1 1 = false := by
  decide

/-- C1 amended: the two deterministic repair passes run before extrusion in
the order isolated-cell removal first, then diagonal-contact breaking; the
mask handed to extrusion equals `breakDiagonalContacts` applied after
`removeIsolated`, and is consequently free of forbidden diagonal patterns at
every in-grid block (though it may retain cells isolated by the second
pass). -/
theorem mainMaskRepair_order (W H : Nat) (m : Mask) :
    (∀ x y, mainMaskRepair W H m x y =
      breakDiagonalContacts W H (removeIsolated W H m) x y) ∧
    (∀ x y, x + 1 < W → y + 1 < H → noPat (mainMaskRepair W H m) (x, y)) :=
  ⟨fun _ _ => rfl,
   fun x y hx hy => breakDiagonalContacts_noPat W H (removeIsolated W H m) x y hx hy⟩

/-- C1 witness: the amended pipeline equality and pattern-freeness at a
concrete grid, mask and cell. -/
theorem mainMaskRepair_order_witness :
    mainMaskRepair 2 2 maskAll 0 0 =
      breakDiagonalContacts 2 2 (removeIsolated 2 2 maskAll) 0 0 ∧
    noPat (mainMaskRepair 2 2 maskAll) (0, 0) :=
  ⟨(mainMaskRepair_order 2 2 maskAll).1 0 0,
   (mainMaskRepair_order 2 2 maskAll).2 0 0 (by decide) (by decide)⟩

/-- An RGBA image: `width × height` pixels, 4 bytes per pixel in row-major
order, as decoded by pngjs (`data[(iy * width + ix) * 4 + k]`). -/
structure Img where
  width : Nat
  height : Nat
  data : List Nat

/-- `clamp(v, lo, hi) = Math.max(lo, Math.min(hi, v))`. -/
def clampQ (v lo hi : ℚ) : ℚ := max lo (min hi v)

/-- One channel byte of the image, normalized to `[0,1]` by the `/ 255` in
the scripts' `px` helper; out-of-range reads default to 0. -/
def byteAt (img : Img) (i : Nat) : ℚ := (img.data.getD i 0 : ℚ) / 255

/-- A normalized RGBA sample. -/
structure RGBA where
  r : ℚ
  g : ℚ
  b : ℚ
  a : ℚ

/-- The `px(ix, iy)` pixel fetch of `sampleRGBA_bilinear`. -/
def px (img : Img) (ix iy : ℤ) : RGBA :=
  ⟨byteAt img ((iy * img.width + ix) * 4).toNat,
   byteAt img (((iy * img.width + ix) * 4).toNat + 1),
   byteAt img (((iy * img.width + ix) * 4).toNat + 2),
   byteAt img (((iy * img.width + ix) * 4).toNat + 3)⟩

/-- `x0 = Math.floor(clamp(u,0,1) * (w - 1))` of `sampleRGBA_bilinear`. -/
def bilinX0 (img : Img) (u : ℚ) : ℤ := ⌊clampQ u 0 1 * ((img.width : ℚ) - 1)⌋

/-- `x1 = Math.min(x0 + 1, w - 1)` of `sampleRGBA_bilinear`. -/
def bilinX1 (img : Img) (u : ℚ) : ℤ := min (bilinX0 img u + 1) ((img.width : ℤ) - 1)

/-- `y0 = Math.floor(clamp(v,0,1) * (h - 1))` of `sampleRGBA_bilinear`. -/
def bilinY0 (img : Img) (v : ℚ) : ℤ := ⌊clampQ v 0 1 * ((img.height : ℚ) - 1)⌋

/-- `y1 = Math.min(y0 + 1, h - 1)` of `sampleRGBA_bilinear`. -/
def bilinY1 (img : Img) (v : ℚ) : ℤ := min (bilinY0 img v + 1) ((img.height : ℤ) - 1)

/-- Linear interpolation `p * (1 - t) + q * t` (one channel, one axis). -/
def mix2 (p q t : ℚ) : ℚ := p * (1 - t) + q * t

/-- `tx = x - x0`, the fractional x-weight of `sampleRGBA_bilinear`. -/
def bilinTx (img : Img) (u : ℚ) : ℚ :=
  clampQ u 0 1 * ((img.width : ℚ) - 1) - bilinX0 img u

/-- `ty = y - y0`, the fractional y-weight of `sampleRGBA_bilinear`. -/
def bilinTy (img : Img) (v : ℚ) : ℚ :=
  clampQ v 0 1 * ((img.height : ℚ) - 1) - bilinY0 img v

/-- `sampleRGBA_bilinear` of build_xqcL_stl.js (lines 247-276) and
build_xqcL_coin_parts.js (lines 24-51): clamp `(u,v)` to `[0,1]`, scale to
index space, fetch the four surrounding pixels `c00, c10, c01, c11` and
blend per channel with weights `tx`, `ty`. -/
def sampleRGBA_bilinear (img : Img) (u v : ℚ) : RGBA :=
  ⟨mix2 (mix2 (px img (bilinX0 img u) (bilinY0 img v)).r
              (px img (bilinX1 img u) (bilinY0 img v)).r (bilinTx img u))
        (mix2 (px img (bilinX0 img u) (bilinY1 img v)).r
              (px img (bilinX1 img u) (bilinY1 img v)).r (bilinTx img u)) (bilinTy img v),
   mix2 (mix2 (px img (bilinX0 img u) (bilinY0 img v)).g
              (px img (bilinX1 img u) (bilinY0 img v)).g (bilinTx img u))
        (mix2 (px img (bilinX0 img u) (bilinY1 img v)).g
              (px img (bilinX1 img u) (bilinY1 img v)).g (bilinTx img u)) (bilinTy img v),
   mix2 (mix2 (px img (bilinX0 img u) (bilinY0 img v)).b
              (px img (bilinX1 img u) (bilinY0 img v)).b (bilinTx img u))
        (mix2 (px img (bilinX0 img u) (bilinY1 img v)).b
              (px img (bilinX1 img u) (bilinY1 img v)).b (bilinTx img u)) (bilinTy img v),
   mix2 (mix2 (px img (bilinX0 img u) (bilinY0 img v)).a
              (px img (bilinX1 img u) (bilinY0 img v)).a (bilinTx img u))
        (mix2 (px img (bilinX0 img u) (bilinY1 img v)).a
              (px img (bilinX1 img u) (bilinY1 img v)).a (bilinTx img u)) (bilinTy img v)⟩

/-- `luminance(r, g, b)` (BT.709 luma weights, identical in both scripts). -/
def luminance (r g b : ℚ) : ℚ := 0.2126 * r + 0.7152 * g + 0.0722 * b

/-- A rational lies in the closed unit interval. -/
def inUnit (q : ℚ) : Prop := 0 ≤ q ∧ q ≤ 1

theorem clampQ_unit (u : ℚ) : 0 ≤ clampQ u 0 1 ∧ clampQ u 0 1 ≤ 1 :=
  ⟨le_max_left 0 _, max_le (by norm_num) (min_le_left 1 u)⟩

theorem byteAt_unit (img : Img) (hdata : ∀ b ∈ img.data, b ≤ 255) (i : Nat) :
    inUnit (byteAt img i) := by
  have hv : img.data.getD i 0 ≤ 255 := by
    rcases Nat.lt_or_ge i img.data.length with hi | hi
    · rw [List.getD_eq_getElem img.data 0 hi]
      exact hdata _ (List.getElem_mem hi)
    · rw [List.getD_eq_default img.data 0 hi]
      norm_num
  constructor
  · exact div_nonneg (by positivity) (by norm_num)
  · unfold byteAt
    rw [div_le_one (by norm_num)]
    exact_mod_cast hv

theorem mix2_unit {p q t : ℚ} (hp : inUnit p) (hq : inUnit q)
    (ht0 : 0 ≤ t) (ht1 : t ≤ 1) : inUnit (mix2 p q t) := by
  obtain ⟨hp0, hp1⟩ := hp
  obtain ⟨hq0, hq1⟩ := hq
  constructor
  · unfold mix2
    nlinarith
  · unfold mix2
    nlinarith

theorem floorIndex_bounds (n : Nat) (c : ℚ) (hc0 : 0 ≤ c) (hc1 : c ≤ 1) (hn : 1 ≤ n) :
    0 ≤ ⌊c * ((n : ℚ) - 1)⌋ ∧ ⌊c * ((n : ℚ) - 1)⌋ ≤ (n : ℤ) - 1 := by
  have hW : (0:ℚ) ≤ (n:ℚ) - 1 := by
    have h1 : (1:ℚ) ≤ (n:ℚ) := by exact_mod_cast hn
    linarith
  constructor
  · apply Int.le_floor.mpr
    push_cast
    exact mul_nonneg hc0 hW
  · have h1 : c * ((n:ℚ) - 1) ≤ (n:ℚ) - 1 := by nlinarith
    have h2 : ((n:ℚ) - 1) = (((n:ℤ) - 1 : ℤ) : ℚ) := by push_cast; ring
    calc ⌊c * ((n:ℚ) - 1)⌋ ≤ ⌊((n:ℚ) - 1)⌋ := Int.floor_le_floor h1
    _ = (n:ℤ) - 1 := by rw [h2, Int.floor_intCast]

theorem frac_bounds (x : ℚ) : 0 ≤ x - ⌊x⌋ ∧ x - ⌊x⌋ ≤ 1 := by
  constructor
  · have := Int.floor_le x
    linarith
  · have := Int.lt_floor_add_one x
    push_cast at this
    linarith

/-- C10: the bilinear sampler is total and range-bounded: for any image with
byte channels in `[0,255]` and dimensions at least 1, and for any rational
`(u, v)` (also outside `[0,1]`), all four computed pixel index pairs lie
within the image bounds, and each returned channel value lies in `[0,1]`. -/
theorem sampleRGBA_bilinear_safe (img : Img) (u v : ℚ)
    (hw : 1 ≤ img.width) (hh : 1 ≤ img.height)
    (hdata : ∀ b ∈ img.data, b ≤ 255) :
    (0 ≤ bilinX0 img u ∧ bilinX0 img u ≤ (img.width : ℤ) - 1 ∧
     0 ≤ bilinX1 img u ∧ bilinX1 img u ≤ (img.width : ℤ) - 1 ∧
     0 ≤ bilinY0 img v ∧ bilinY0 img v ≤ (img.height : ℤ) - 1 ∧
     0 ≤ bilinY1 img v ∧ bilinY1 img v ≤ (img.height : ℤ) - 1) ∧
    (inUnit (sampleRGBA_bilinear img u v).r ∧ inUnit (sampleRGBA_bilinear img u v).g ∧
     inUnit (sampleRGBA_bilinear img u v).b ∧ inUnit (sampleRGBA_bilinear img u v).a) := by
  obtain ⟨hu0, hu1⟩ := clampQ_unit u
  obtain ⟨hv0, hv1⟩ := clampQ_unit v
  obtain ⟨hx00, hx01⟩ := floorIndex_bounds img.width (clampQ u 0 1) hu0 hu1 hw
  obtain ⟨hy00, hy01⟩ := floorIndex_bounds img.height (clampQ v 0 1) hv0 hv1 hh
  have hbx0 : 0 ≤ bilinX0 img u := hx00
  have hbx1 : bilinX0 img u ≤ (img.width : ℤ) - 1 := hx01
  have hby0 : 0 ≤ bilinY0 img v := hy00
  have hby1 : bilinY0 img v ≤ (img.height : ℤ) - 1 := hy01
  have hwZ : (0:ℤ) ≤ (img.width : ℤ) - 1 := by omega
  have hhZ : (0:ℤ) ≤ (img.height : ℤ) - 1 := by omega
  have hbyte : ∀ i, inUnit (byteAt img i) := byteAt_unit img hdata
  have htx := frac_bounds (clampQ u 0 1 * ((img.width : ℚ) - 1))
  have hty := frac_bounds (clampQ v 0 1 * ((img.height : ℚ) - 1))
  refine ⟨⟨hbx0, hbx1, le_min (by omega) hwZ, min_le_right _ _,
           hby0, hby1, le_min (by omega) hhZ, min_le_right _ _⟩, ?_, ?_, ?_, ?_⟩
  · exact mix2_unit (mix2_unit (hbyte _) (hbyte _) htx.1 htx.2)
      (mix2_unit (hbyte _) (hbyte _) htx.1 htx.2) hty.1 hty.2
  · exact mix2_unit (mix2_unit (hbyte _) (hbyte _) htx.1 htx.2)
      (mix2_unit (hbyte _) (hbyte _) htx.1 htx.2) hty.1 hty.2
  · exact mix2_unit (mix2_unit (hbyte _) (hbyte _) htx.1 htx.2)
      (mix2_unit (hbyte _) (hbyte _) htx.1 htx.2) hty.1 hty.2
  · exact mix2_unit (mix2_unit (hbyte _) (hbyte _) htx.1 htx.2)
      (mix2_unit (hbyte _) (hbyte _) htx.1 htx.2) hty.1 hty.2

/-- A concrete 1×1 image (single opaque red pixel) for witnesses. -/
def imgRed : Img := ⟨1, 1, [255, 0, 0, 255]⟩

/-- C10 witness: the sampler bounds instantiated at a concrete image and at
coordinates outside the unit square, hypotheses discharged by computation. -/
theorem sampleRGBA_bilinear_safe_witness :
    (0 ≤ bilinX0 imgRed 2 ∧ bilinX0 imgRed 2 ≤ (imgRed.width : ℤ) - 1 ∧
     0 ≤ bilinX1 imgRed 2 ∧ bilinX1 imgRed 2 ≤ (imgRed.width : ℤ) - 1 ∧
     0 ≤ bilinY0 imgRed (-1) ∧ bilinY0 imgRed (-1) ≤ (imgRed.height : ℤ) - 1 ∧
     0 ≤ bilinY1 imgRed (-1) ∧ bilinY1 imgRed (-1) ≤ (imgRed.height : ℤ) - 1) ∧
    (inUnit (sampleRGBA_bilinear imgRed 2 (-1)).r ∧
     inUnit (sampleRGBA_bilinear imgRed 2 (-1)).g ∧
     inUnit (sampleRGBA_bilinear imgRed 2 (-1)).b ∧
     inUnit (sampleRGBA_bilinear imgRed 2 (-1)).a) :=
  sampleRGBA_bilinear_safe imgRed 2 (-1) (by decide) (by decide) (by decide)

/-- Row-major grid builder shared by the resampler model: row `y` outer,
column `x` inner, so element `(x, y)` sits at flat index `y * m + x`. -/
def gridList {α : Type} (m n : Nat) (f : Nat → Nat → α) : List α :=
  (List.range n).flatMap (fun y => (List.range m).map (fun x => f x y))

theorem gridList_length {α : Type} (m n : Nat) (f : Nat → Nat → α) :
    (gridList m n f).length = m * n := by
  induction n with
  | zero => rfl
  | succ n ih =>
    unfold gridList
    rw [List.range_succ, List.flatMap_append]
    rw [List.length_append]
    unfold gridList at ih
    rw [ih]
    simp [Nat.mul_succ]

theorem gridList_getD {α : Type} (m n x y : Nat) (f : Nat → Nat → α) (d : α)
    (hx : x < m) (hy : y < n) :
    (gridList m n f).getD (y * m + x) d = f x y := by
  induction n with
  | zero => omega
  | succ n ih =>
    unfold gridList
    rw [List.range_succ, List.flatMap_append]
    have hlen : ((List.range n).flatMap
        (fun y => (List.range m).map (fun x => f x y))).length = m * n := by
      have hg := gridList_length m n f
      unfold gridList at hg
      rw [hg]
    rcases Nat.lt_or_ge y n with hy2 | hy2
    · have hbound : y * m + x < ((List.range n).flatMap
          (fun y => (List.range m).map (fun x => f x y))).length := by
        rw [hlen]
        calc y * m + x < y * m + m := by omega
        _ = (y + 1) * m := by ring
        _ ≤ n * m := Nat.mul_le_mul_right m hy2
        _ = m * n := by ring
      rw [List.getD_append _ _ _ _ hbound]
      unfold gridList at ih
      exact ih hy2
    · have hyn : y = n := by omega
      rw [hyn]
      have hge : ((List.range n).flatMap
          (fun y => (List.range m).map (fun x => f x y))).length ≤ n * m + x := by
        rw [hlen]
        calc m * n = n * m := by ring
        _ ≤ n * m + x := by omega
      rw [List.getD_append_right _ _ _ _ hge, hlen]
      have hidx : n * m + x - m * n = x := by
        rw [Nat.mul_comm]
        omega
      rw [hidx]
      simp only [List.flatMap_singleton]
      rw [List.getD_eq_getElem _ _ (by simpa using hx)]
      simp

/-- The nearest-neighbor source index of `resampleNearestAlpha`:
`Math.floor((i / (N - 1)) * (srcN - 1))`.  When `N = 1` the script computes
`0 / 0 = NaN` (the only index actually evaluated is `i = 0`), so the index
is undefined; this is modelled as `none`. -/
def resampleIndex (N srcN i : Nat) : Option ℤ :=
  if N = 1 then none
  else some ⌊((i : ℚ) / ((N : ℚ) - 1)) * ((srcN : ℚ) - 1)⌋

/-- One output cell of `resampleNearestAlpha`: `alpha[sy * w + sx]`.  A
defined, in-bounds index pair reads the source; an undefined (NaN) index or
an out-of-bounds read (JS `undefined`) yields no number, modelled `none`. -/
def resampleCell (alpha : List ℚ) (w h newW newH x y : Nat) : Option ℚ :=
  match resampleIndex newH h y, resampleIndex newW w x with
  | some sy, some sx =>
      if 0 ≤ sy ∧ sy < (h : ℤ) ∧ 0 ≤ sx ∧ sx < (w : ℤ) then
        some (alpha.getD (sy.toNat * w + sx.toNat) 0)
      else none
  | _, _ => none

/-- `resampleNearestAlpha` of build_xqcL_stl.js (lines 27-37): a new
`newW × newH` grid filled row-by-row (`y` outer, `x` inner, flat index
`y * newW + x`), with no validation of any dimension. -/
def resampleNearestAlpha (alpha : List ℚ) (w h newW newH : Nat) : List (Option ℚ) :=
  gridList newW newH (fun x y => resampleCell alpha w h newW newH x y)

/-- C4 counterexample: with SOURCE dimensions `1 × 1` (both `< 2`) and
target `2 × 2`, the claim asserts the resampler fails with
`InvalidDimension` and produces no output grid; instead the code performs no
validation and returns a full 2×2 grid, every cell a defined copy of the
single source sample. -/
theorem resampleNearestAlpha_no_validation_counterexample :
    resampleNearestAlpha [7/255] 1 1 2 2 =
      [some (7/255), some (7/255), some (7/255), some (7/255)] := by
  have h0 : resampleIndex 2 1 0 = some 0 := by
    unfold resampleIndex
    norm_num
  have h1 : resampleIndex 2 1 1 = some 0 := by
    unfold resampleIndex
    norm_num
  simp [resampleNearestAlpha, gridList, List.range_succ, resampleCell, h0, h1]

/-- C4 amended: the resampling operation performs no dimension validation
and never fails: for all dimensions it returns a `newW × newH` grid.  When
both target dimensions are at least 2 and both source dimensions at least 1,
target cell `(x, y)` holds the source sample at row
`floor(y/(newH-1) * (h-1))` and column `floor(x/(newW-1) * (w-1))`; only a
target dimension equal to 1 makes the computed source index undefined
(`0/0`, NaN). -/
theorem resampleNearestAlpha_total_and_mapping (alpha : List ℚ) (w h newW newH : Nat) :
    (resampleNearestAlpha alpha w h newW newH).length = newW * newH ∧
    (∀ x y, x < newW → y < newH → 2 ≤ newW → 2 ≤ newH → 1 ≤ w → 1 ≤ h →
      (resampleNearestAlpha alpha w h newW newH).getD (y * newW + x) none =
        some (alpha.getD
          ((⌊((y : ℚ) / ((newH : ℚ) - 1)) * ((h : ℚ) - 1)⌋).toNat * w +
           (⌊((x : ℚ) / ((newW : ℚ) - 1)) * ((w : ℚ) - 1)⌋).toNat) 0)) := by
  constructor
  · exact gridList_length newW newH _
  · intro x y hx hy hW2 hH2 hw1 hh1
    rw [resampleNearestAlpha, gridList_getD newW newH x y _ none hx hy]
    have hcy : 0 ≤ (y : ℚ) / ((newH : ℚ) - 1) ∧ (y : ℚ) / ((newH : ℚ) - 1) ≤ 1 := by
      have hpos : (0:ℚ) < (newH : ℚ) - 1 := by
        have : (2:ℚ) ≤ (newH : ℚ) := by exact_mod_cast hH2
        linarith
      constructor
      · positivity
      · rw [div_le_one hpos]
        have : (y : ℚ) ≤ (newH : ℚ) - 1 := by
          have : (y : ℚ) + 1 ≤ (newH : ℚ) := by exact_mod_cast hy
          linarith
        exact this
    have hcx : 0 ≤ (x : ℚ) / ((newW : ℚ) - 1) ∧ (x : ℚ) / ((newW : ℚ) - 1) ≤ 1 := by
      have hpos : (0:ℚ) < (newW : ℚ) - 1 := by
        have : (2:ℚ) ≤ (newW : ℚ) := by exact_mod_cast hW2
        linarith
      constructor
      · positivity
      · rw [div_le_one hpos]
        have : (x : ℚ) ≤ (newW : ℚ) - 1 := by
          have : (x : ℚ) + 1 ≤ (newW : ℚ) := by exact_mod_cast hx
          linarith
        exact this
    have hsy := floorIndex_bounds h ((y : ℚ) / ((newH : ℚ) - 1)) hcy.1 hcy.2 hh1
    have hsx := floorIndex_bounds w ((x : ℚ) / ((newW : ℚ) - 1)) hcx.1 hcx.2 hw1
    unfold resampleCell resampleIndex
    rw [if_neg (by omega), if_neg (by omega)]
    dsimp only
    rw [if_pos ⟨hsy.1, by omega, hsx.1, by omega⟩]

/-- C4 witness: the amended characterization instantiated at a concrete
2×2 source, 3×3 target and cell (2, 1), hypotheses discharged concretely. -/
theorem resampleNearestAlpha_total_and_mapping_witness :
    (resampleNearestAlpha [1/2, 1/4, 3/4, 1] 2 2 3 3).length = 3 * 3 ∧
    (resampleNearestAlpha [1/2, 1/4, 3/4, 1] 2 2 3 3).getD (1 * 3 + 2) none =
      some (([1/2, 1/4, 3/4, 1] : List ℚ).getD
        ((⌊((1 : ℚ) / ((3 : ℚ) - 1)) * ((2 : ℚ) - 1)⌋).toNat * 2 +
         (⌊((2 : ℚ) / ((3 : ℚ) - 1)) * ((2 : ℚ) - 1)⌋).toNat) 0) :=
  ⟨(resampleNearestAlpha_total_and_mapping [1/2, 1/4, 3/4, 1] 2 2 3 3).1,
   by
    have hq := (resampleNearestAlpha_total_and_mapping [1/2, 1/4, 3/4, 1] 2 2 3 3).2
      2 1 (by decide) (by decide) (by decide) (by decide) (by decide) (by decide)
    exact_mod_cast hq⟩

/-- A 3D vector with exact rational components. -/
structure Vec3 where
  x : ℚ
  y : ℚ
  z : ℚ
deriving DecidableEq

/-- Componentwise difference, the codec's `B - A` edge vectors. -/
def vsub (a b : Vec3) : Vec3 := ⟨a.x - b.x, a.y - b.y, a.z - b.z⟩

/-- Cross product, exactly the component formulas of `addTri` / `normal`. -/
def cross (u v : Vec3) : Vec3 :=
  ⟨u.y * v.z - u.z * v.y, u.z * v.x - u.x * v.z, u.x * v.y - u.y * v.x⟩

/-- Dot product. -/
def dot (u v : Vec3) : ℚ := u.x * v.x + u.y * v.y + u.z * v.z

/-- The normal computation of the Binary Mesh Codec (`addTri` in
build_xqcL_stl.js lines 54-64, `normal` at lines 426-437, and the identical
`normal` in build_xqcL_coin_parts.js lines 223-232):
`n = (v1 - v0) × (v2 - v0)`, `len = Math.hypot(nx, ny, nz) || 1`, stored
normal `n / len`.  `len = √(n·n)` is irrational, so the stored normal is
represented symbolically as a pair `(n, s)` meaning `n / √s`: when the cross
product is zero, `hypot` is 0 (falsy) and the divisor defaults to 1, giving
the pair `(0, 1)` — the zero vector; otherwise `s = n·n` and the
represented vector is `n / ‖n‖`. -/
def storedNormal (A B C : Vec3) : Vec3 × ℚ :=
  if dot (cross (vsub B A) (vsub C A)) (cross (vsub B A) (vsub C A)) = 0 then
    (cross (vsub B A) (vsub C A), 1)
  else
    (cross (vsub B A) (vsub C A), dot (cross (vsub B A) (vsub C A)) (cross (vsub B A) (vsub C A)))

/-- Squared length of the represented vector `n / √s`. -/
def normSqOf (p : Vec3 × ℚ) : ℚ := dot p.1 p.1 / p.2

theorem dot_self_eq_zero_iff (v : Vec3) : dot v v = 0 ↔ v = ⟨0, 0, 0⟩ := by
  obtain ⟨a, b, c⟩ := v
  unfold dot
  simp only [Vec3.mk.injEq]
  constructor
  · intro h
    have ha : a * a = 0 := by nlinarith [mul_self_nonneg a, mul_self_nonneg b, mul_self_nonneg c]
    have hb : b * b = 0 := by nlinarith [mul_self_nonneg a, mul_self_nonneg b, mul_self_nonneg c]
    have hc : c * c = 0 := by nlinarith [mul_self_nonneg a, mul_self_nonneg b, mul_self_nonneg c]
    exact ⟨mul_self_eq_zero.mp ha, mul_self_eq_zero.mp hb, mul_self_eq_zero.mp hc⟩
  · rintro ⟨rfl, rfl, rfl⟩
    ring

/-- C3 counterexample: on a degenerate triangle (all three vertices equal,
collinear edge vectors) the stored normal is the ZERO vector with squared
length 0, not a fixed fallback unit vector as the claim asserts. -/
theorem storedNormal_zero_fallback_counterexample :
    storedNormal ⟨0, 0, 0⟩ ⟨0, 0, 0⟩ ⟨0, 0, 0⟩ = (⟨0, 0, 0⟩, 1) ∧
    normSqOf (storedNormal ⟨0, 0, 0⟩ ⟨0, 0, 0⟩ ⟨0, 0, 0⟩) = 0 := by
  constructor
  · unfold storedNormal
    rw [if_pos (by norm_num [dot, cross, vsub])]
    norm_num [cross, vsub]
  · unfold normSqOf storedNormal
    rw [if_pos (by norm_num [dot, cross, vsub])]
    norm_num [dot, cross, vsub]

/-- C3 amended: for every triangle written by the Binary Mesh Codec, when
the cross product of `(v1-v0)` and `(v2-v0)` is non-zero the stored normal
is that cross product normalized, of squared length exactly 1 (hence unit
within any tolerance); when the cross product is zero the stored normal is
the zero vector (the `hypot(...) || 1` divisor defaults to 1), not a unit
vector. -/
theorem storedNormal_unit_or_zero (A B C : Vec3) :
    (cross (vsub B A) (vsub C A) ≠ ⟨0, 0, 0⟩ → normSqOf (storedNormal A B C) = 1) ∧
    (cross (vsub B A) (vsub C A) = ⟨0, 0, 0⟩ → storedNormal A B C = (⟨0, 0, 0⟩, 1)) := by
  constructor
  · intro hne
    have hd : dot (cross (vsub B A) (vsub C A)) (cross (vsub B A) (vsub C A)) ≠ 0 :=
      fun h => hne ((dot_self_eq_zero_iff _).mp h)
    unfold normSqOf storedNormal
    rw [if_neg hd]
    exact div_self hd
  · intro heq
    have hd : dot (cross (vsub B A) (vsub C A)) (cross (vsub B A) (vsub C A)) = 0 :=
      (dot_self_eq_zero_iff _).mpr heq
    unfold storedNormal
    rw [if_pos hd, heq]

/-- C3 witness: a non-degenerate right triangle gets a squared-unit normal,
and a fully degenerate triangle gets the zero-vector fallback. -/
theorem storedNormal_unit_or_zero_witness :
    normSqOf (storedNormal ⟨0, 0, 0⟩ ⟨1, 0, 0⟩ ⟨0, 1, 0⟩) = 1 ∧
    storedNormal ⟨2, 3, 4⟩ ⟨2, 3, 4⟩ ⟨2, 3, 4⟩ = (⟨0, 0, 0⟩, 1) :=
  ⟨(storedNormal_unit_or_zero ⟨0, 0, 0⟩ ⟨1, 0, 0⟩ ⟨0, 1, 0⟩).1
    (by norm_num [cross, vsub, Vec3.mk.injEq]),
   (storedNormal_unit_or_zero ⟨2, 3, 4⟩ ⟨2, 3, 4⟩ ⟨2, 3, 4⟩).2
    (by norm_num [cross, vsub])⟩

/-- A triangle-soup record as produced by `addTri`: the (symbolic) stored
normal plus the three vertex positions. -/
structure STri where
  n : Vec3
  nden : ℚ
  a : Vec3
  b : Vec3
  c : Vec3

/-- Little-endian bytes of `Buffer.writeUInt16LE` (the 2-byte attribute). -/
def u16le (n : Nat) : List Nat := [n % 256, n / 256 % 256]

/-- Little-endian bytes of `Buffer.writeUInt32LE`. -/
def u32le (n : Nat) : List Nat :=
  [n % 256, n / 256 % 256, n / 65536 % 256, n / 16777216 % 256]

/-- `Buffer.readUInt32LE(off)` over a byte list. -/
def readU32le (buf : List Nat) (off : Nat) : Nat :=
  buf.getD off 0 + 256 * buf.getD (off + 1) 0 + 65536 * buf.getD (off + 2) 0 +
    16777216 * buf.getD (off + 3) 0

/-- The 80-byte header region: `Buffer.alloc` zero-fills and
`out.write(headerText.slice(0, 80), 0, 'ascii')` overwrites the prefix with
the header bytes. -/
def headerField (header : List Nat) : List Nat :=
  header.take 80 ++ List.replicate (80 - (header.take 80).length) 0

/-- The 50 bytes of one triangle record: 12 normal bytes, 9 × 4 vertex
bytes in the fixed order `ax ay az bx by bz cx cy cz`, 2 attribute bytes
(always 0).  The IEEE-754 float32 encoding is Node's `writeFloatLE`, an
external primitive: it is taken as a parameter `f32` producing 4 bytes per
scalar (and `n12` producing the 12 bytes of the stored normal). -/
def triRecordBytes (f32 : ℚ → List Nat) (n12 : Vec3 × ℚ → List Nat) (t : STri) : List Nat :=
  n12 (t.n, t.nden) ++ f32 t.a.x ++ f32 t.a.y ++ f32 t.a.z ++
    f32 t.b.x ++ f32 t.b.y ++ f32 t.b.z ++
    f32 t.c.x ++ f32 t.c.y ++ f32 t.c.z ++ u16le 0

/-- `writeBinarySTL` (build_xqcL_stl.js lines 149-179, and the equivalent
writers at lines 419-463 and in build_xqcL_coin_parts.js lines 216-254):
80-byte header, 4-byte little-endian triangle count at offset 80, then one
50-byte record per triangle. -/
def writeBinarySTL (f32 : ℚ → List Nat) (n12 : Vec3 × ℚ → List Nat)
    (header : List Nat) (tris : List STri) : List Nat :=
  headerField header ++ u32le tris.length ++ tris.flatMap (triRecordBytes f32 n12)

/-- The triangle-count read of `readBinarySTL` (inspect_stl.js line 4):
`buf.readUInt32LE(80)`. -/
def readTriCount (buf : List Nat) : Nat := readU32le buf 80

theorem headerField_length (header : List Nat) : (headerField header).length = 80 := by
  unfold headerField
  rw [List.length_append, List.length_replicate]
  have h : (header.take 80).length ≤ 80 := by
    rw [List.length_take]
    omega
  omega

theorem triRecordBytes_length (f32 : ℚ → List Nat) (n12 : Vec3 × ℚ → List Nat) (t : STri)
    (hf : ∀ q, (f32 q).length = 4) (hn : ∀ p, (n12 p).length = 12) :
    (triRecordBytes f32 n12 t).length = 50 := by
  unfold triRecordBytes u16le
  simp [List.length_append, hf, hn]

theorem flatMap_const_length {α : Type} (f : α → List Nat) (k : Nat)
    (hf : ∀ a, (f a).length = k) (l : List α) : (l.flatMap f).length = k * l.length := by
  induction l with
  | nil => simp
  | cons a l ih =>
    rw [List.flatMap_cons, List.length_append, hf, ih, List.length_cons]
    ring

theorem getD_offset80 (header rest : List Nat) (i : Nat) :
    (headerField header ++ rest).getD (80 + i) 0 = rest.getD i 0 := by
  rw [List.getD_append_right _ _ _ _ (by rw [headerField_length]; omega)]
  rw [headerField_length]
  congr 1
  omega

/-- C6: for every triangle list, the written byte buffer has size exactly
`84 + 50 * triangleCount`, the 4-byte little-endian count stored at offset
80 equals the number of triangles (which fits in 32 bits), and the
companion reader `readBinarySTL` recovers that same count.  Holds for every
4-byte-per-scalar float encoding. -/
theorem writeBinarySTL_layout (f32 : ℚ → List Nat) (n12 : Vec3 × ℚ → List Nat)
    (header : List Nat) (tris : List STri)
    (hf : ∀ q, (f32 q).length = 4) (hn : ∀ p, (n12 p).length = 12)
    (hcount : tris.length < 4294967296) :
    (writeBinarySTL f32 n12 header tris).length = 84 + 50 * tris.length ∧
    readTriCount (writeBinarySTL f32 n12 header tris) = tris.length := by
  constructor
  · unfold writeBinarySTL
    rw [List.length_append, List.length_append, headerField_length]
    rw [flatMap_const_length (triRecordBytes f32 n12) 50
      (fun t => triRecordBytes_length f32 n12 t hf hn) tris]
    simp [u32le]
  · unfold writeBinarySTL readTriCount readU32le
    have e0 := getD_offset80 header (u32le tris.length ++ tris.flatMap (triRecordBytes f32 n12)) 0
    have e1 := getD_offset80 header (u32le tris.length ++ tris.flatMap (triRecordBytes f32 n12)) 1
    have e2 := getD_offset80 header (u32le tris.length ++ tris.flatMap (triRecordBytes f32 n12)) 2
    have e3 := getD_offset80 header (u32le tris.length ++ tris.flatMap (triRecordBytes f32 n12)) 3
    rw [show (80:Nat) + 0 = 80 from rfl] at e0
    rw [List.append_assoc]
    rw [e0, e1, e2, e3]
    rw [List.getD_append _ _ _ _ (by simp [u32le]),
        List.getD_append _ _ _ _ (by simp [u32le]),
        List.getD_append _ _ _ _ (by simp [u32le]),
        List.getD_append _ _ _ _ (by simp [u32le])]
    simp only [u32le, List.getD_cons_zero, List.getD_cons_succ]
    omega

/-- Trivial 4-byte scalar encoder used only to instantiate the witness. -/
def f32zero : ℚ → List Nat := fun _ => [0, 0, 0, 0]

/-- Trivial 12-byte normal encoder used only to instantiate the witness. -/
def n12zero : Vec3 × ℚ → List Nat := fun _ => List.replicate 12 0

/-- C6 witness: layout and count round-trip instantiated on a concrete
one-triangle mesh with concrete encoders. -/
theorem writeBinarySTL_layout_witness :
    (writeBinarySTL f32zero n12zero [120]
      [⟨⟨0, 0, 1⟩, 1, ⟨0, 0, 0⟩, ⟨1, 0, 0⟩, ⟨0, 1, 0⟩⟩]).length = 84 + 50 * 1 ∧
    readTriCount (writeBinarySTL f32zero n12zero [120]
      [⟨⟨0, 0, 1⟩, 1, ⟨0, 0, 0⟩, ⟨1, 0, 0⟩, ⟨0, 1, 0⟩⟩]) = 1 :=
  writeBinarySTL_layout f32zero n12zero [120] _
    (fun _ => rfl) (fun _ => rfl) (by norm_num)

/-- Luminance of an RGB triple. -/
def lumP (p : ℚ × ℚ × ℚ) : ℚ := luminance p.1 p.2.1 p.2.2

/-- The luminance comparator `(a, b) => luminance(...a) - luminance(...b)`
(ascending); JS `Array.prototype.sort` is stable, modelled by the stable
`mergeSort`. -/
def lumLe (a b : ℚ × ℚ × ℚ) : Bool := decide (lumP a ≤ lumP b)

/-- `[...points].sort(by luminance)` of `kmeansDeterministic`. -/
def sortByLum (points : List (ℚ × ℚ × ℚ)) : List (ℚ × ℚ × ℚ) :=
  points.mergeSort lumLe

/-- Squared Euclidean RGB distance (`dr*dr + dg*dg + db*db`). -/
def sqDist (p q : ℚ × ℚ × ℚ) : ℚ :=
  (p.1 - q.1) * (p.1 - q.1) + (p.2.1 - q.2.1) * (p.2.1 - q.2.1) +
    (p.2.2 - q.2.2) * (p.2.2 - q.2.2)

/-- The nearest-center scan shared by the assignment loop of
`kmeansDeterministic` and by `nearestCenterIndex` (lines 117-129):
`best = 0`, `bestD = Infinity`, strict improvement only (distance ties keep
the earlier index); the first center always beats Infinity.  State:
(best index so far, next index, best distance so far; `none` = Infinity). -/
def nearestCenterIndex (p : ℚ × ℚ × ℚ) (centers : List (ℚ × ℚ × ℚ)) : Nat :=
  (centers.foldl
    (fun st c =>
      match st with
      | (_, i, none) => (i, i + 1, some (sqDist p c))
      | (best, i, some bd) =>
        if sqDist p c < bd then (i, i + 1, some (sqDist p c))
        else (best, i + 1, some bd))
    (0, 0, (none : Option ℚ))).1

/-- The assignment pass of one k-means iteration. -/
def assignAll (points centers : List (ℚ × ℚ × ℚ)) : List Nat :=
  points.map (fun p => nearestCenterIndex p centers)

/-- Componentwise sum of a point list. -/
def sumPts (l : List (ℚ × ℚ × ℚ)) : ℚ × ℚ × ℚ :=
  l.foldl (fun s p => (s.1 + p.1, s.2.1 + p.2.1, s.2.2 + p.2.2)) (0, 0, 0)

/-- The recompute pass for one center: mean of its assigned points; a center
with zero assigned points keeps its previous value (`sum[c][3] > 0` guard). -/
def centerUpdate (points : List (ℚ × ℚ × ℚ)) (asg : List Nat) (c : Nat)
    (old : ℚ × ℚ × ℚ) : ℚ × ℚ × ℚ :=
  let sel := ((points.zip asg).filter (fun pa => pa.2 == c)).map (fun pa => pa.1)
  if sel.length = 0 then old
  else ((sumPts sel).1 / sel.length, (sumPts sel).2.1 / sel.length,
        (sumPts sel).2.2 / sel.length)

/-- One k-means iteration: assign, then recompute all centers. -/
def kmeansStep (points centers : List (ℚ × ℚ × ℚ)) : List (ℚ × ℚ × ℚ) :=
  (List.range centers.length).map
    (fun c => centerUpdate points (assignAll points centers) c (centers.getD c (0, 0, 0)))

/-- The fixed-count iteration loop of `kmeansDeterministic`. -/
def kmeansIterate (points : List (ℚ × ℚ × ℚ)) : Nat → List (ℚ × ℚ × ℚ) → List (ℚ × ℚ × ℚ)
  | 0, cs => cs
  | n + 1, cs => kmeansIterate points n (kmeansStep points cs)

/-- The deterministic initialization of `kmeansDeterministic`: seeds at the
luminance-sorted rank positions `clamp(floor((i + 0.5) * (N / k)), 0, N-1)`
for `i < k`. -/
def initCenters (points : List (ℚ × ℚ × ℚ)) (k : Nat) : List (ℚ × ℚ × ℚ) :=
  (List.range k).map (fun i =>
    (sortByLum points).getD
      (Int.toNat (max 0 (min (((sortByLum points).length : ℤ) - 1)
        ⌊((i : ℚ) + 1/2) * (((sortByLum points).length : ℚ) / (k : ℚ))⌋))) (0, 0, 0))

/-- `kmeansDeterministic` of build_xqcL_coin_parts.js (lines 64-115): throws
`'no points'` on an empty input (modelled `none`), otherwise deterministic
init followed by `iters` assign/recompute iterations.  The returned center
list is in internal cluster-index order; no sort is applied to it. -/
def kmeansDeterministic (points : List (ℚ × ℚ × ℚ)) (k iters : Nat) :
    Option (List (ℚ × ℚ × ℚ)) :=
  if points = [] then none
  else some (kmeansIterate points iters (initCenters points k))

/-- The center list `main` computes at line 409 and hands UNSORTED to the
per-cell classification `nearestCenterIndex(p, centers)` at line 441. -/
def mainCenters (points : List (ℚ × ℚ × ℚ)) (K : Nat) : Option (List (ℚ × ℚ × ℚ)) :=
  kmeansDeterministic points K 10

/-- The luminance sort `main` applies at lines 412-414 to the PALETTE
records only (the JSON report), not to the classification centers. -/
def paletteOrder (centers : List (ℚ × ℚ × ℚ)) : List (ℚ × ℚ × ℚ) :=
  centers.mergeSort lumLe

theorem kmeansIterate_succ (points cs : List (ℚ × ℚ × ℚ)) (n : Nat) :
    kmeansIterate points (n + 1) cs = kmeansIterate points n (kmeansStep points cs) := rfl

theorem kmeansIterate_fixed (points cs : List (ℚ × ℚ × ℚ))
    (h : kmeansStep points cs = cs) : ∀ n, kmeansIterate points n cs = cs := by
  intro n
  induction n with
  | zero => rfl
  | succ n ih => rw [kmeansIterate_succ, h, ih]

/-- Four foreground RGB samples: blue-magenta-ish `p0`, two greens `p1, p2`,
bright magenta `p3`; luminances ascending in list order. -/
def c2Points : List (ℚ × ℚ × ℚ) := [(1, 1/5, 1), (0, 7/10, 0), (0, 21/25, 0), (1, 1/2, 1)]

theorem c2_sorted : sortByLum c2Points = c2Points := by
  apply List.mergeSort_of_sorted
  norm_num [c2Points, List.pairwise_cons, lumLe, lumP, luminance]

theorem c2_init : initCenters c2Points 2 = [(0, 7/10, 0), (1, 1/2, 1)] := by
  unfold initCenters
  rw [c2_sorted]
  norm_num [c2Points, List.range_succ, Int.toNat_ofNat]
  rfl

theorem c2_step1 : kmeansStep c2Points [(0, 7/10, 0), (1, 1/2, 1)] =
    [(0, 77/100, 0), (1, 7/20, 1)] := by
  norm_num [kmeansStep, assignAll, nearestCenterIndex, sqDist, centerUpdate, sumPts,
    c2Points, List.range_succ, List.filter_cons, Nat.reduceBEq]
  constructor <;> simp

theorem c2_fix : kmeansStep c2Points [(0, 77/100, 0), (1, 7/20, 1)] =
    [(0, 77/100, 0), (1, 7/20, 1)] := by
  norm_num [kmeansStep, assignAll, nearestCenterIndex, sqDist, centerUpdate, sumPts,
    c2Points, List.range_succ, List.filter_cons, Nat.reduceBEq]

theorem c2_eval : mainCenters c2Points 2 = some [(0, 77/100, 0), (1, 7/20, 1)] := by
  unfold mainCenters kmeansDeterministic
  rw [if_neg (by decide), c2_init, show (10:Nat) = 9 + 1 from rfl, kmeansIterate_succ,
    c2_step1, kmeansIterate_fixed c2Points _ c2_fix 9]

/-- C2 counterexample: on the four-point set `c2Points` with K = 2, the
center sequence `main` computes at line 409 and hands to the per-cell
classification at line 441 is NOT luminance-sorted: the first center has
strictly greater luminance than the second.  (After one iteration the run
reaches a fixed point, so ten iterations return these exact centers.) -/
theorem mainCenters_not_luminance_sorted_counterexample :
    mainCenters c2Points 2 = some [(0, 77/100, 0), (1, 7/20, 1)] ∧
    ¬ lumP ((0 : ℚ), (77/100 : ℚ), (0 : ℚ)) ≤ lumP ((1 : ℚ), (7/20 : ℚ), (1 : ℚ)) :=
  ⟨c2_eval, by norm_num [lumP, luminance]⟩

/-- C2 amended: only the palette report written to JSON is sorted by
luminance ascending; the center sequence used by downstream nearest-center
classification is the raw k-means output in internal cluster-index order,
which need not be luminance-sorted.  The palette ordering is sorted for
every center list the pipeline can produce. -/
theorem paletteOrder_sorted_of_mainCenters (points : List (ℚ × ℚ × ℚ)) (K : Nat)
    (cs : List (ℚ × ℚ × ℚ)) (h : mainCenters points K = some cs) :
    List.Pairwise (fun a b => lumP a ≤ lumP b) (paletteOrder cs) := by
  have htrans : ∀ a b c, lumLe a b = true → lumLe b c = true → lumLe a c = true := by
    intro a b c hab hbc
    simp only [lumLe, decide_eq_true_eq] at hab hbc ⊢
    exact le_trans hab hbc
  have htotal : ∀ a b, (lumLe a b || lumLe b a) = true := by
    intro a b
    simp only [lumLe, Bool.or_eq_true, decide_eq_true_eq]
    exact le_total (lumP a) (lumP b)
  have hpw := List.sorted_mergeSort htrans htotal cs
  exact hpw.imp (fun hab => by simpa [lumLe, decide_eq_true_eq] using hab)

/-- C2 witness: the amended sortedness instantiated on the concrete run of
the pipeline on `c2Points` with K = 2. -/
theorem paletteOrder_sorted_of_mainCenters_witness :
    List.Pairwise (fun a b => lumP a ≤ lumP b)
      (paletteOrder [(0, 77/100, 0), (1, 7/20, 1)]) :=
  paletteOrder_sorted_of_mainCenters c2Points 2 [(0, 77/100, 0), (1, 7/20, 1)] c2_eval

/-- `zTop(i) = baseThicknessMM + (alpha[i] / 255) * reliefHeightMM` of
`buildWatertightHeightmapSTL`. -/
def zTopHF (alpha : List ℚ) (base relief : ℚ) (i : Nat) : ℚ :=
  base + alpha.getD i 0 / 255 * relief

/-- Grid spacing `dx = targetWidthMM / (w - 1)` (same formula for `dy`). -/
def dxHF (tw : ℚ) (n : Nat) : ℚ := tw / ((n : ℚ) - 1)

/-- `V(x, y, z)` of `buildWatertightHeightmapSTL`: grid index to centered
world position `(x*dx - (w-1)*dx/2, y*dy - (h-1)*dy/2, z)`. -/
def vHF (w h : Nat) (tw : ℚ) (x y : Nat) (z : ℚ) : Vec3 :=
  ⟨(x : ℚ) * dxHF tw w - ((w : ℚ) - 1) * dxHF tw w / 2,
   (y : ℚ) * dxHF tw h - ((h : ℚ) - 1) * dxHF tw h / 2, z⟩

/-- `addTri`: record the triangle with its (symbolically normalized) normal. -/
def mkTri (A B C : Vec3) : STri :=
  ⟨(storedNormal A B C).1, (storedNormal A B C).2, A, B, C⟩

theorem mkTri_a (A B C : Vec3) : (mkTri A B C).a = A := rfl

theorem mkTri_b (A B C : Vec3) : (mkTri A B C).b = B := rfl

theorem mkTri_c (A B C : Vec3) : (mkTri A B C).c = C := rfl

theorem vHF_z (w h : Nat) (tw : ℚ) (x y : Nat) (z : ℚ) : (vHF w h tw x y z).z = z := rfl

/-- Top surface of `buildWatertightHeightmapSTL` (lines 74-90): per interior
cell, quad split along the (x,y)-(x+1,y+1) diagonal, counter-clockwise from
+Z. -/
def topTrisHF (alpha : List ℚ) (w h : Nat) (tw base relief : ℚ) : List STri :=
  (List.range (h-1)).flatMap (fun y => (List.range (w-1)).flatMap (fun x =>
    [mkTri (vHF w h tw x y (zTopHF alpha base relief (y*w+x)))
           (vHF w h tw (x+1) y (zTopHF alpha base relief (y*w+(x+1))))
           (vHF w h tw (x+1) (y+1) (zTopHF alpha base relief ((y+1)*w+(x+1)))),
     mkTri (vHF w h tw x y (zTopHF alpha base relief (y*w+x)))
           (vHF w h tw (x+1) (y+1) (zTopHF alpha base relief ((y+1)*w+(x+1))))
           (vHF w h tw x (y+1) (zTopHF alpha base relief ((y+1)*w+x)))]))

/-- Bottom surface (lines 93-104): flat at z = 0, reversed winding. -/
def botTrisHF (w h : Nat) (tw : ℚ) : List STri :=
  (List.range (h-1)).flatMap (fun y => (List.range (w-1)).flatMap (fun x =>
    [mkTri (vHF w h tw x y 0) (vHF w h tw (x+1) (y+1) 0) (vHF w h tw (x+1) y 0),
     mkTri (vHF w h tw x y 0) (vHF w h tw x (y+1) 0) (vHF w h tw (x+1) (y+1) 0)]))

/-- `addWall(x0, y0, x1, y1, zTop0, zTop1)` (lines 108-117). -/
def addWallHF (w h : Nat) (tw : ℚ) (x0 y0 x1 y1 : Nat) (z0 z1 : ℚ) : List STri :=
  [mkTri (vHF w h tw x0 y0 0) (vHF w h tw x1 y1 0) (vHF w h tw x1 y1 z1),
   mkTri (vHF w h tw x0 y0 0) (vHF w h tw x1 y1 z1) (vHF w h tw x0 y0 z0)]

/-- The four boundary wall ribbons (lines 119-144), with the per-edge
segment directions exactly as in the source. -/
def wallTrisHF (alpha : List ℚ) (w h : Nat) (tw base relief : ℚ) : List STri :=
  ((List.range (w-1)).flatMap (fun x =>
    addWallHF w h tw x 0 (x+1) 0
      (zTopHF alpha base relief (0*w+x)) (zTopHF alpha base relief (0*w+(x+1))))) ++
  ((List.range (w-1)).flatMap (fun x =>
    addWallHF w h tw (x+1) (h-1) x (h-1)
      (zTopHF alpha base relief ((h-1)*w+(x+1))) (zTopHF alpha base relief ((h-1)*w+x)))) ++
  ((List.range (h-1)).flatMap (fun y =>
    addWallHF w h tw 0 (y+1) 0 y
      (zTopHF alpha base relief ((y+1)*w+0)) (zTopHF alpha base relief (y*w+0)))) ++
  ((List.range (h-1)).flatMap (fun y =>
    addWallHF w h tw (w-1) y (w-1) (y+1)
      (zTopHF alpha base relief (y*w+(w-1))) (zTopHF alpha base relief ((y+1)*w+(w-1)))))

/-- `buildWatertightHeightmapSTL` of build_xqcL_stl.js (lines 39-147):
top surface, bottom surface, then the four wall ribbons. -/
def buildWatertightHeightmapSTL (alpha : List ℚ) (w h : Nat) (tw base relief : ℚ) :
    List STri :=
  topTrisHF alpha w h tw base relief ++ botTrisHF w h tw ++
    wallTrisHF alpha w h tw base relief

/-- All x coordinates of a triangle list, in emission order. -/
def triXs (ts : List STri) : List ℚ := ts.flatMap (fun t => [t.a.x, t.b.x, t.c.x])

/-- All y coordinates of a triangle list. -/
def triYs (ts : List STri) : List ℚ := ts.flatMap (fun t => [t.a.y, t.b.y, t.c.y])

/-- All z coordinates of a triangle list. -/
def triZs (ts : List STri) : List ℚ := ts.flatMap (fun t => [t.a.z, t.b.z, t.c.z])

theorem idx_lt (w h x y : Nat) (hx : x < w) (hy : y < h) : y * w + x < w * h := by
  calc y * w + x < y * w + w := by omega
  _ = (y + 1) * w := by ring
  _ ≤ h * w := Nat.mul_le_mul_right w hy
  _ = w * h := by ring

theorem vHF_x (w h : Nat) (tw : ℚ) (x y : Nat) (z : ℚ) :
    (vHF w h tw x y z).x = (x : ℚ) * dxHF tw w - ((w : ℚ) - 1) * dxHF tw w / 2 := rfl

theorem vHF_y (w h : Nat) (tw : ℚ) (x y : Nat) (z : ℚ) :
    (vHF w h tw x y z).y = (y : ℚ) * dxHF tw h - ((h : ℚ) - 1) * dxHF tw h / 2 := rfl

/-- The 4×4 all-opaque alpha grid (every sample 255). -/
def alpha16 : List ℚ := List.replicate 16 255

set_option maxRecDepth 1000000 in
set_option maxHeartbeats 16000000 in
/-- C7: a 2×2 all-opaque image resampled to a 4×4 grid is the all-255 grid;
the Heightfield Relief Builder on that grid with targetWidth 60, base 2,
relief 6 emits triangles whose z coordinates all lie in [0, 8] with both
ends attained, and whose x and y coordinates all lie in [-30, 30] with both
ends attained; and in general, on any uniformly-255 alpha grid every
top-surface triangle vertex sits at height exactly base + relief. -/
theorem heightmap_ranges_and_flat_top :
    (resampleNearestAlpha (List.replicate 4 255) 2 2 4 4 =
      List.replicate 16 (some 255)) ∧
    (∀ z ∈ triZs (buildWatertightHeightmapSTL alpha16 4 4 60 2 6), 0 ≤ z ∧ z ≤ 8) ∧
    ((0 : ℚ) ∈ triZs (buildWatertightHeightmapSTL alpha16 4 4 60 2 6)) ∧
    ((8 : ℚ) ∈ triZs (buildWatertightHeightmapSTL alpha16 4 4 60 2 6)) ∧
    (∀ q ∈ triXs (buildWatertightHeightmapSTL alpha16 4 4 60 2 6), -30 ≤ q ∧ q ≤ 30) ∧
    ((-30 : ℚ) ∈ triXs (buildWatertightHeightmapSTL alpha16 4 4 60 2 6)) ∧
    ((30 : ℚ) ∈ triXs (buildWatertightHeightmapSTL alpha16 4 4 60 2 6)) ∧
    (∀ q ∈ triYs (buildWatertightHeightmapSTL alpha16 4 4 60 2 6), -30 ≤ q ∧ q ≤ 30) ∧
    ((-30 : ℚ) ∈ triYs (buildWatertightHeightmapSTL alpha16 4 4 60 2 6)) ∧
    ((30 : ℚ) ∈ triYs (buildWatertightHeightmapSTL alpha16 4 4 60 2 6)) ∧
    (∀ (alpha : List ℚ) (w h : Nat) (tw base relief : ℚ),
      (∀ i, i < w * h → alpha.getD i 0 = 255) →
      ∀ t ∈ topTrisHF alpha w h tw base relief,
        t.a.z = base + relief ∧ t.b.z = base + relief ∧ t.c.z = base + relief) := by
  refine ⟨?_, ?_, ?_, ?_, ?_, ?_, ?_, ?_, ?_, ?_, ?_⟩
  · norm_num [resampleNearestAlpha, gridList, resampleCell, resampleIndex,
      List.range_succ, List.replicate_succ]
  · norm_num [triZs, buildWatertightHeightmapSTL, topTrisHF, botTrisHF, wallTrisHF,
      addWallHF, List.range_succ, mkTri_a, mkTri_b, mkTri_c, vHF_z, zTopHF, alpha16,
      List.replicate_succ]
  · norm_num [triZs, buildWatertightHeightmapSTL, topTrisHF, botTrisHF, wallTrisHF,
      addWallHF, List.range_succ, mkTri_a, mkTri_b, mkTri_c, vHF_z, zTopHF, alpha16,
      List.replicate_succ]
  · norm_num [triZs, buildWatertightHeightmapSTL, topTrisHF, botTrisHF, wallTrisHF,
      addWallHF, List.range_succ, mkTri_a, mkTri_b, mkTri_c, vHF_z, zTopHF, alpha16,
      List.replicate_succ]
  · norm_num [triXs, buildWatertightHeightmapSTL, topTrisHF, botTrisHF, wallTrisHF,
      addWallHF, List.range_succ, mkTri_a, mkTri_b, mkTri_c, vHF_x, dxHF, alpha16,
      List.replicate_succ]
  · norm_num [triXs, buildWatertightHeightmapSTL, topTrisHF, botTrisHF, wallTrisHF,
      addWallHF, List.range_succ, mkTri_a, mkTri_b, mkTri_c, vHF_x, dxHF, alpha16,
      List.replicate_succ]
  · norm_num [triXs, buildWatertightHeightmapSTL, topTrisHF, botTrisHF, wallTrisHF,
      addWallHF, List.range_succ, mkTri_a, mkTri_b, mkTri_c, vHF_x, dxHF, alpha16,
      List.replicate_succ]
  · norm_num [triYs, buildWatertightHeightmapSTL, topTrisHF, botTrisHF, wallTrisHF,
      addWallHF, List.range_succ, mkTri_a, mkTri_b, mkTri_c, vHF_y, dxHF, alpha16,
      List.replicate_succ]
  · norm_num [triYs, buildWatertightHeightmapSTL, topTrisHF, botTrisHF, wallTrisHF,
      addWallHF, List.range_succ, mkTri_a, mkTri_b, mkTri_c, vHF_y, dxHF, alpha16,
      List.replicate_succ]
  · norm_num [triYs, buildWatertightHeightmapSTL, topTrisHF, botTrisHF, wallTrisHF,
      addWallHF, List.range_succ, mkTri_a, mkTri_b, mkTri_c, vHF_y, dxHF, alpha16,
      List.replicate_succ]
  · intro alpha w h tw base relief h255 t ht
    simp only [topTrisHF, List.mem_flatMap, List.mem_range] at ht
    obtain ⟨y, hy, x, hx, hmem⟩ := ht
    have hz : ∀ i, i < w * h → zTopHF alpha base relief i = base + relief := by
      intro i hi
      unfold zTopHF
      rw [h255 i hi]
      norm_num
    have hi00 : y * w + x < w * h := idx_lt w h x y (by omega) (by omega)
    have hi10 : y * w + (x+1) < w * h := idx_lt w h (x+1) y (by omega) (by omega)
    have hi11 : (y+1) * w + (x+1) < w * h := idx_lt w h (x+1) (y+1) (by omega) (by omega)
    have hi01 : (y+1) * w + x < w * h := idx_lt w h x (y+1) (by omega) (by omega)
    rcases List.mem_cons.mp hmem with rfl | hmem2
    · exact ⟨by rw [mkTri_a, vHF_z, hz _ hi00], by rw [mkTri_b, vHF_z, hz _ hi10],
        by rw [mkTri_c, vHF_z, hz _ hi11]⟩
    · rcases List.mem_cons.mp hmem2 with rfl | hmem3
      · exact ⟨by rw [mkTri_a, vHF_z, hz _ hi00], by rw [mkTri_b, vHF_z, hz _ hi11],
          by rw [mkTri_c, vHF_z, hz _ hi01]⟩
      · cases hmem3

/-- C7 witness: the z-bound applied at the attained value 0, and the
general flat-top fact applied to the first top triangle of the concrete
4×4 all-opaque grid. -/
theorem heightmap_ranges_and_flat_top_witness :
    ((0:ℚ) ≤ 0 ∧ (0:ℚ) ≤ 8) ∧
    (mkTri (vHF 4 4 60 0 0 (zTopHF alpha16 2 6 (0*4+0)))
           (vHF 4 4 60 (0+1) 0 (zTopHF alpha16 2 6 (0*4+(0+1))))
           (vHF 4 4 60 (0+1) (0+1) (zTopHF alpha16 2 6 ((0+1)*4+(0+1))))).a.z = 2 + 6 :=
  ⟨heightmap_ranges_and_flat_top.2.1 0 heightmap_ranges_and_flat_top.2.2.1,
   (heightmap_ranges_and_flat_top.2.2.2.2.2.2.2.2.2.2 alpha16 4 4 60 2 6
     (by
       intro i hi
       interval_cases i <;> rfl)
     (mkTri (vHF 4 4 60 0 0 (zTopHF alpha16 2 6 (0*4+0)))
            (vHF 4 4 60 (0+1) 0 (zTopHF alpha16 2 6 (0*4+(0+1))))
            (vHF 4 4 60 (0+1) (0+1) (zTopHF alpha16 2 6 ((0+1)*4+(0+1)))))
     (List.mem_flatMap.mpr ⟨0, by norm_num,
       List.mem_flatMap.mpr ⟨0, by norm_num, List.mem_cons_self _ _⟩⟩)).1⟩

/-- `R = diameterMM / 2` of `buildCoinMesh`. -/
def coinR (diameter : ℚ) : ℚ := diameter / 2

/-- `innerR = Math.max(0, R - rimWidthMM)` of `buildCoinMesh`. -/
def coinInnerR (diameter rimW : ℚ) : ℚ := max 0 (coinR diameter - rimW)

/-- The top height of a ring vertex (`ri ≥ 1`) of `buildCoinMesh`
(build_xqcL_stl.js lines 332-356).  `powF` models `Math.pow(·, reliefGamma)`
and `cs si` models `(cos θ, sin θ)` at `θ = (si / segments) * 2π`; both are
parameters because they are irrational in general, and no conclusion below
depends on their values beyond `cos² + sin² = 1`. -/
def coinRingTopZ (img : Img) (powF : ℚ → ℚ) (cs : Nat → ℚ × ℚ)
    (diameter base reliefH rimW rimH minRelief emojiScale : ℚ)
    (rings ri si : Nat) : ℚ :=
  let rr := ((ri : ℚ) / (rings : ℚ)) * coinR diameter
  let x := rr * (cs si).1
  let y := rr * (cs si).2
  if coinInnerR diameter rimW ≤ rr ∧ 0 < rimW then base + rimH
  else
    let u := 1/2 + x / (2 * coinInnerR diameter rimW * emojiScale)
    let v := 1/2 - y / (2 * coinInnerR diameter rimW * emojiScale)
    let s := sampleRGBA_bilinear img u v
    base + s.a * max minRelief (powF (luminance s.r s.g s.b) * reliefH)

/-- The top height of the center vertex (`ri = 0`, lines 314-325):
`relief = Math.max(0, a) * Math.max(minRelief, pow(lum, gamma) * reliefH)`
sampled at `(u, v) = (0.5, 0.5)`. -/
def coinCenterTopZ (img : Img) (powF : ℚ → ℚ) (base reliefH minRelief : ℚ) : ℚ :=
  base + max 0 (sampleRGBA_bilinear img (1/2) (1/2)).a *
    max minRelief (powF (luminance (sampleRGBA_bilinear img (1/2) (1/2)).r
      (sampleRGBA_bilinear img (1/2) (1/2)).g
      (sampleRGBA_bilinear img (1/2) (1/2)).b) * reliefH)

/-- The vertex buffer `V` of `buildCoinMesh` in push order: ring 0 pushes
the top and bottom center; every ring `ri = ri0 + 1 ≤ rings` pushes, per
segment, the top vertex `(rr·cos, rr·sin, zTop)` then the bottom vertex
`(rr·cos, rr·sin, 0)`. -/
def buildCoinMeshVerts (img : Img) (powF : ℚ → ℚ) (cs : Nat → ℚ × ℚ)
    (diameter base reliefH rimW rimH minRelief emojiScale : ℚ)
    (segments rings : Nat) : List Vec3 :=
  [⟨0, 0, coinCenterTopZ img powF base reliefH minRelief⟩, ⟨0, 0, 0⟩] ++
  (List.range rings).flatMap (fun ri0 =>
    (List.range segments).flatMap (fun si =>
      [⟨(((ri0 + 1 : Nat) : ℚ) / (rings : ℚ)) * coinR diameter * (cs si).1,
        (((ri0 + 1 : Nat) : ℚ) / (rings : ℚ)) * coinR diameter * (cs si).2,
        coinRingTopZ img powF cs diameter base reliefH rimW rimH minRelief emojiScale
          rings (ri0 + 1) si⟩,
       ⟨(((ri0 + 1 : Nat) : ℚ) / (rings : ℚ)) * coinR diameter * (cs si).1,
        (((ri0 + 1 : Nat) : ℚ) / (rings : ℚ)) * coinR diameter * (cs si).2, 0⟩]))

theorem sample_alpha_zero (img : Img)
    (htransp : ∀ n, img.data.getD (4 * n + 3) 0 = 0) (u v : ℚ) :
    (sampleRGBA_bilinear img u v).a = 0 := by
  have hpx : ∀ ix iy : ℤ, (px img ix iy).a = 0 := by
    intro ix iy
    show byteAt img (((iy * img.width + ix) * 4).toNat + 3) = 0
    have he : ((iy * img.width + ix) * 4).toNat = 4 * (iy * img.width + ix).toNat := by
      omega
    rw [he]
    unfold byteAt
    rw [htransp ((iy * img.width + ix).toNat)]
    norm_num
  show mix2 (mix2 (px img (bilinX0 img u) (bilinY0 img v)).a
              (px img (bilinX1 img u) (bilinY0 img v)).a (bilinTx img u))
        (mix2 (px img (bilinX0 img u) (bilinY1 img v)).a
              (px img (bilinX1 img u) (bilinY1 img v)).a (bilinTx img u)) (bilinTy img v) = 0
  simp only [hpx]
  unfold mix2
  ring

/-- C8: on a fully transparent image (alpha byte 0 at every pixel), the
Radial Coin Builder produces zero relief in the inner zone (top height
exactly `baseThickness` at every top vertex strictly inside radius
`R - rimWidth`, including the center vertex), a rim band flat at exactly
`baseThickness + rimHeight` at every top ring vertex of radius at least
`R - rimWidth` (with `0 < rimWidth < R`), and the maximum squared vertex
distance from the Z axis over the whole vertex buffer equals
`(diameter/2)²` exactly (attained at the outermost ring). -/
theorem coin_transparent_zero_relief (img : Img) (powF : ℚ → ℚ) (cs : Nat → ℚ × ℚ)
    (diameter base reliefH rimW rimH minRelief emojiScale : ℚ) (segments rings : Nat)
    (htransp : ∀ n, img.data.getD (4 * n + 3) 0 = 0)
    (hcs : ∀ s, (cs s).1 ^ 2 + (cs s).2 ^ 2 = 1)
    (hseg : 1 ≤ segments) (hrings : 1 ≤ rings)
    (hdiam : 0 < diameter) (hrim0 : 0 < rimW) (hrimR : rimW < coinR diameter) :
    (∀ (ri si : Nat), ((ri : ℚ) / (rings : ℚ)) * coinR diameter < coinR diameter - rimW →
      coinRingTopZ img powF cs diameter base reliefH rimW rimH minRelief emojiScale
        rings ri si = base) ∧
    coinCenterTopZ img powF base reliefH minRelief = base ∧
    (∀ (ri si : Nat), coinR diameter - rimW ≤ ((ri : ℚ) / (rings : ℚ)) * coinR diameter →
      coinRingTopZ img powF cs diameter base reliefH rimW rimH minRelief emojiScale
        rings ri si = base + rimH) ∧
    (∀ p ∈ buildCoinMeshVerts img powF cs diameter base reliefH rimW rimH minRelief
        emojiScale segments rings, p.x ^ 2 + p.y ^ 2 ≤ coinR diameter ^ 2) ∧
    (∃ p ∈ buildCoinMeshVerts img powF cs diameter base reliefH rimW rimH minRelief
        emojiScale segments rings, p.x ^ 2 + p.y ^ 2 = coinR diameter ^ 2) := by
  have hinner : coinInnerR diameter rimW = coinR diameter - rimW := by
    unfold coinInnerR
    exact max_eq_right (by linarith)
  have hRpos : 0 < coinR diameter := by
    unfold coinR
    linarith
  refine ⟨?_, ?_, ?_, ?_, ?_⟩
  · intro ri si hlt
    simp only [coinRingTopZ, hinner]
    rw [if_neg (fun hc => absurd hc.1 (not_le.mpr hlt))]
    rw [sample_alpha_zero img htransp]
    ring
  · unfold coinCenterTopZ
    rw [sample_alpha_zero img htransp]
    simp
  · intro ri si hge
    simp only [coinRingTopZ, hinner]
    rw [if_pos ⟨hge, hrim0⟩]
  · intro p hp
    rcases List.mem_append.mp hp with hp2 | hp2
    · rcases List.mem_cons.mp hp2 with rfl | hp3
      · simp only
        norm_num
        positivity
      · rcases List.mem_cons.mp hp3 with rfl | hp4
        · simp only
          norm_num
          positivity
        · cases hp4
    · simp only [List.mem_flatMap, List.mem_range] at hp2
      obtain ⟨ri0, hri, si, hsi, hmem⟩ := hp2
      have hfrac0 : 0 ≤ ((ri0 + 1 : Nat) : ℚ) / (rings : ℚ) := by positivity
      have hfrac1 : ((ri0 + 1 : Nat) : ℚ) / (rings : ℚ) ≤ 1 := by
        rw [div_le_one (by exact_mod_cast Nat.lt_of_lt_of_le Nat.zero_lt_one hrings)]
        exact_mod_cast hri
      have hrr0 : 0 ≤ ((ri0 + 1 : Nat) : ℚ) / (rings : ℚ) * coinR diameter :=
        mul_nonneg hfrac0 hRpos.le
      have hrr1 : ((ri0 + 1 : Nat) : ℚ) / (rings : ℚ) * coinR diameter ≤ coinR diameter := by
        nlinarith
      have hsq : (((ri0 + 1 : Nat) : ℚ) / (rings : ℚ) * coinR diameter) ^ 2 ≤
          coinR diameter ^ 2 := pow_le_pow_left₀ hrr0 hrr1 2
      have hring : ∀ z : ℚ,
          (Vec3.mk (((ri0 + 1 : Nat) : ℚ) / (rings : ℚ) * coinR diameter * (cs si).1)
            (((ri0 + 1 : Nat) : ℚ) / (rings : ℚ) * coinR diameter * (cs si).2) z).x ^ 2 +
          (Vec3.mk (((ri0 + 1 : Nat) : ℚ) / (rings : ℚ) * coinR diameter * (cs si).1)
            (((ri0 + 1 : Nat) : ℚ) / (rings : ℚ) * coinR diameter * (cs si).2) z).y ^ 2 =
          (((ri0 + 1 : Nat) : ℚ) / (rings : ℚ) * coinR diameter) ^ 2 := by
        intro z
        show (((ri0 + 1 : Nat) : ℚ) / (rings : ℚ) * coinR diameter * (cs si).1) ^ 2 +
          (((ri0 + 1 : Nat) : ℚ) / (rings : ℚ) * coinR diameter * (cs si).2) ^ 2 = _
        calc (((ri0 + 1 : Nat) : ℚ) / (rings : ℚ) * coinR diameter * (cs si).1) ^ 2 +
            (((ri0 + 1 : Nat) : ℚ) / (rings : ℚ) * coinR diameter * (cs si).2) ^ 2 =
            (((ri0 + 1 : Nat) : ℚ) / (rings : ℚ) * coinR diameter) ^ 2 *
              ((cs si).1 ^ 2 + (cs si).2 ^ 2) := by ring
        _ = (((ri0 + 1 : Nat) : ℚ) / (rings : ℚ) * coinR diameter) ^ 2 := by
            rw [hcs si]
            ring
      rcases List.mem_cons.mp hmem with rfl | hmem2
      · rw [hring]
        exact hsq
      · rcases List.mem_cons.mp hmem2 with rfl | hmem3
        · rw [hring]
          exact hsq
        · cases hmem3
  · refine ⟨Vec3.mk (((rings - 1 + 1 : Nat) : ℚ) / (rings : ℚ) * coinR diameter * (cs 0).1)
      (((rings - 1 + 1 : Nat) : ℚ) / (rings : ℚ) * coinR diameter * (cs 0).2)
      (coinRingTopZ img powF cs diameter base reliefH rimW rimH minRelief emojiScale
        rings (rings - 1 + 1) 0), ?_, ?_⟩
    · refine List.mem_append.mpr (Or.inr (List.mem_flatMap.mpr
        ⟨rings - 1, List.mem_range.mpr (by omega), List.mem_flatMap.mpr
          ⟨0, List.mem_range.mpr (by omega), List.mem_cons_self _ _⟩⟩))
    · have he : ((rings - 1 + 1 : Nat) : ℚ) = (rings : ℚ) := by
        congr 1
        omega
      show (((rings - 1 + 1 : Nat) : ℚ) / (rings : ℚ) * coinR diameter * (cs 0).1) ^ 2 +
        (((rings - 1 + 1 : Nat) : ℚ) / (rings : ℚ) * coinR diameter * (cs 0).2) ^ 2 =
        coinR diameter ^ 2
      rw [he]
      have hr : (rings : ℚ) ≠ 0 := Nat.cast_ne_zero.mpr (by omega)
      rw [div_self hr]
      calc (1 * coinR diameter * (cs 0).1) ^ 2 + (1 * coinR diameter * (cs 0).2) ^ 2 =
          coinR diameter ^ 2 * ((cs 0).1 ^ 2 + (cs 0).2 ^ 2) := by ring
      _ = coinR diameter ^ 2 := by
          rw [hcs 0]
          ring

/-- A fully transparent 1×1 image. -/
def imgTransparent : Img := ⟨1, 1, [0, 0, 0, 0]⟩

/-- Identity power function standing in for `pow(·, gamma)` in the witness. -/
def idQ : ℚ → ℚ := fun q => q

/-- Constant unit-circle sampler `(cos, sin) = (1, 0)` for the witness. -/
def csUnit : Nat → ℚ × ℚ := fun _ => (1, 0)

/-- C8 witness: coin of diameter 60, base 3, rim 2.2/0.8, two rings, one
segment, on the transparent image: ring 1 (radius 15, inner zone) is at
height 3, the center is at height 3, and ring 2 (radius 30, rim band) is at
height 3 + 0.8. -/
theorem coin_transparent_zero_relief_witness :
    coinRingTopZ imgTransparent idQ csUnit 60 3 (8/5) (11/5) (4/5) (1/20) (41/50)
      2 1 0 = 3 ∧
    coinCenterTopZ imgTransparent idQ 3 (8/5) (1/20) = 3 ∧
    coinRingTopZ imgTransparent idQ csUnit 60 3 (8/5) (11/5) (4/5) (1/20) (41/50)
      2 2 0 = 3 + 4/5 := by
  have htransp : ∀ n, imgTransparent.data.getD (4 * n + 3) 0 = 0 := by
    intro n
    cases n with
    | zero => rfl
    | succ m =>
      apply List.getD_eq_default
      show imgTransparent.data.length ≤ 4 * (m + 1) + 3
      show (4 : Nat) ≤ 4 * (m + 1) + 3
      omega
  have hth := coin_transparent_zero_relief imgTransparent idQ csUnit
    60 3 (8/5) (11/5) (4/5) (1/20) (41/50) 1 2 htransp
    (fun s => by norm_num [csUnit]) (le_refl 1) (by norm_num) (by norm_num)
    (by norm_num) (by norm_num [coinR])
  exact ⟨hth.1 1 0 (by norm_num [coinR]), hth.2.1, hth.2.2.1 2 0 (by norm_num [coinR])⟩
